import Mathlib

/-!
Verification of the dormsoup-daemon ingestion pipeline (`src/emailToEvents.ts`)
against its natural-language specification.

The development shallowly embeds the pipeline: JavaScript `Date` values are
embedded as records of the observations the code makes on them (`getTime`,
`getHours`, `getMinutes`, `getDay`), the Prisma store is a record of lists,
machine-level concurrency is embedded as traces of labelled actions together
with a validity predicate on interleaved schedules, and fallible code returns
an explicit outcome marker.  External collaborators that live in files of the
repository not shown here (the vector database `vectordb.ts`, the LLM wrappers
in `llm/`) are modelled from the specification's interface descriptions; every
such definition carries a doc comment saying so.
-/

namespace DormSoup

/-- Observable fields of a JavaScript `Date` as used by `mergeEvents`:
`time` is `getTime()` (milliseconds since epoch), `hours` is `getHours()`,
`minutes` is `getMinutes()`, `day` is `getDay()` (day of week). -/
structure JsDate where
  time : Int
  hours : Nat
  minutes : Nat
  day : Nat
deriving DecidableEq

/-- The `{ receivedAt }` projection of an email record that `mergeEvents`
receives through the `fromEmail` field. -/
structure EmailRef where
  receivedAt : Int
deriving DecidableEq

/-- Argument shape of `mergeEvents` in the source:
`{ date: Date; location: string; fromEmail: null | { receivedAt: Date } }`. -/
structure MergeArg where
  date : JsDate
  location : String
  fromEmail : Option EmailRef
deriving DecidableEq

/-- Result of `mergeEvents`: `"unmergable" | "former" | "latter"`. -/
inductive MergeRes
  | unmergable
  | former
  | latter
deriving DecidableEq

/-- `leadsWith p l` holds when the pattern `p` is an initial segment of `l`
(the workhorse for embedding JavaScript's `String.prototype.includes`). -/
def leadsWith : List Char → List Char → Bool
  | [], _ => true
  | _ :: _, [] => false
  | p :: ps, c :: cs => p == c && leadsWith ps cs

/-- `occursIn p l` holds when `p` occurs contiguously inside `l`; this is
`l.includes(p)` on the underlying character lists. -/
def occursIn (p : List Char) : List Char → Bool
  | [] => leadsWith p []
  | c :: cs => leadsWith p (c :: cs) || occursIn p cs

/-- `isAllDay` from `mergeEvents`:
`(date) => date.getHours() === 0 && date.getMinutes() === 0`. -/
def isAllDay (d : JsDate) : Bool := d.hours == 0 && d.minutes == 0

/-- `s.toLowerCase()`, represented as the list of lowered characters. -/
def lowerStr (s : String) : List Char := s.toList.map Char.toLower

/-- JavaScript `a.includes(b)` after `toLowerCase` on both sides. -/
def includesCI (a b : String) : Bool := occursIn (lowerStr b) (lowerStr a)

/-- Shallow embedding of `mergeEvents` (source lines 373-390).  The source
reads `event1.fromEmail!!.receivedAt` with a non-null assertion; when either
`fromEmail` is `null` and both compatibility tests pass, the JavaScript code
throws a `TypeError`, embedded here as `none`. -/
def mergeEvents (event1 event2 : MergeArg) : Option MergeRes :=
  if !(((isAllDay event1.date || isAllDay event2.date) &&
        (event1.date.day == event2.date.day)) ||
      (event1.date.time == event2.date.time)) then some .unmergable
  else if !((lowerStr event1.location == "unknown".toList) ||
      (lowerStr event2.location == "unknown".toList) ||
      includesCI event1.location event2.location ||
      includesCI event2.location event1.location) then some .unmergable
  else
    match event1.fromEmail, event2.fromEmail with
    | some f1, some f2 =>
        some (if f1.receivedAt ≤ f2.receivedAt then .latter else .former)
    | _, _ => none

/-! ### Specification-side predicates for claim C5

These definitions follow the wording of the specification, to be compared
with `mergeEvents` above. -/

/-- Spec wording: an "all-day" marker is a timestamp whose hour and minute
are both zero (midnight). -/
def specAllDayMarker (d : JsDate) : Prop := d.hours = 0 ∧ d.minutes = 0

/-- Spec wording: the two timestamps are exactly equal, or at least one is an
all-day marker and both fall on the same day-of-week. -/
def specDateCompatible (e1 e2 : MergeArg) : Prop :=
  e1.date.time = e2.date.time ∨
    ((specAllDayMarker e1.date ∨ specAllDayMarker e2.date) ∧
      e1.date.day = e2.date.day)

/-- `SubstringCI a b`: `a` is a case-insensitive contiguous substring of `b`. -/
def SubstringCI (a b : String) : Prop :=
  ∃ l r, lowerStr b = l ++ lowerStr a ++ r

/-- Spec wording: either location is the literal wildcard "unknown"
(case-insensitively), or one location string is a case-insensitive substring
of the other. -/
def specLocationCompatible (e1 e2 : MergeArg) : Prop :=
  lowerStr e1.location = "unknown".toList ∨ lowerStr e2.location = "unknown".toList ∨
    SubstringCI e1.location e2.location ∨ SubstringCI e2.location e1.location

/-! ### The dormspam classifier (source lines 126-146)

The source builds a case-insensitive regular expression from the fixed
keyword list, replacing every run of spaces in a keyword by `\s+`, joins the
patterns with `|` and tests whether the text matches anywhere.  The embedding
compiles each keyword to a token list (`Tok.lit` for a literal character
matched case-insensitively, `Tok.gap` for `\s+`) and runs a backtracking
matcher at every start position, which is exactly the semantics of
`RegExp.prototype.test` for this alternation of simple patterns. -/

/-- The fixed dormspam signature phrases (source lines 126-137). -/
def dormspamKeywords : List String :=
  ["bcc'd to all dorms",
   "bcc's to all dorms",
   "bcc'd to dorms",
   "bcc'ed dorms",
   "bcc'ed to dorms",
   "bcc to dorms",
   "bcc'd to everyone",
   "bcc dormlists",
   "bcc to dormlists",
   "for bc-talk"]

/-- A compiled pattern token: a literal character (case-insensitive) or the
`\s+` separator produced by `keyword.replaceAll(/ +/g, "\\s+")`. -/
inductive Tok
  | lit (c : Char)
  | gap
deriving DecidableEq

/-- Whitespace as matched by the regex class `\s` (the ASCII part; the
keywords and the equivalence proved about the matcher use only this class). -/
def isWS (c : Char) : Bool :=
  c == ' ' || c == '\t' || c == '\n' || c == '\r' || c == '\x0b' || c == '\x0c'

/-- Keyword compilation worker: the boolean records whether the previous
character was a space, so that a run of spaces emits a single `gap`
(`replaceAll(/ +/g, "\\s+")` consumes a whole run at once). -/
def toToksAux : Bool → List Char → List Tok
  | _, [] => []
  | inGap, c :: cs =>
      if c == ' ' then
        if inGap then toToksAux true cs else .gap :: toToksAux true cs
      else .lit c :: toToksAux false cs

/-- Compile a keyword to tokens: each run of spaces becomes one `gap`,
every other character a case-insensitive literal. -/
def toToks (l : List Char) : List Tok := toToksAux false l

/-- The backtracking matcher: does the token list match an initial segment of
the character list?  `gap` consumes one or more whitespace characters. -/
def matchChars : List Char → List Tok → Bool
  | _, [] => true
  | [], _ :: _ => false
  | x :: xs, .lit c :: ts => (c.toLower == x.toLower) && matchChars xs ts
  | x :: xs, .gap :: ts => isWS x && (matchChars xs ts || matchChars xs (.gap :: ts))

/-- Try the matcher at every start position (`RegExp.prototype.test`). -/
def searchToks (ts : List Tok) : List Char → Bool
  | [] => matchChars [] ts
  | c :: cs => matchChars (c :: cs) ts || searchToks ts cs

/-- Shallow embedding of `isDormspam` (source lines 139-146): test the text
against the alternation of all compiled keyword patterns. -/
def isDormspam (text : String) : Bool :=
  dormspamKeywords.any (fun k => searchToks (toToks k.toList) text.toList)

/-! Specification-side predicates for claim C9, following the spec's wording:
the text contains, case-insensitively and with whitespace runs treated as a
single flexible separator, at least one of the fixed signature phrases. -/

/-- Case-insensitive equality of character lists. -/
def CIEqList (a b : List Char) : Prop :=
  a.map Char.toLower = b.map Char.toLower

/-- `FlexMatch ws m`: the segment `m` spells the words `ws` in order,
case-insensitively, with the words separated by nonempty whitespace runs. -/
inductive FlexMatch : List (List Char) → List Char → Prop
  | single {w s} : CIEqList w s → FlexMatch [w] s
  | cons {w ws u g rest} : CIEqList w u → g ≠ [] → (∀ c ∈ g, isWS c = true) →
      FlexMatch ws rest → FlexMatch (w :: ws) (u ++ g ++ rest)

/-- Token list denoted by a word list: literals joined by single `gap`s. -/
def toksOfWords : List (List Char) → List Tok
  | [] => []
  | [w] => w.map .lit
  | w :: ws => w.map .lit ++ .gap :: toksOfWords ws

/-! ### Data model: the Prisma store and the embedding index -/

/-- A stored `Email` row together with its `sender` relation. -/
structure StoredEmail where
  messageId : String
  scrapedBy : String
  uid : Nat
  senderEmail : String
  senderName : String
  subject : String
  body : String
  receivedAt : Int
  modelName : String
  inReplyToId : Option String
deriving DecidableEq

/-- A row of the `IgnoredEmail` ledger, keyed by `(scrapedBy, uid)`. -/
structure IgnoredRec where
  scrapedBy : String
  uid : Nat
  receivedAt : Int
deriving DecidableEq

/-- A stored `Event` row. -/
structure StoredEvent where
  id : Nat
  date : JsDate
  title : String
  location : String
  organizer : String
  duration : Int
  fromEmailId : String
  text : String
deriving DecidableEq

/-- An `EmailSender` row. -/
structure Sender where
  email : String
  name : String
deriving DecidableEq

/-- Modelled from the spec: an `EmbeddingEntry` of the Embedding Index
(`vectordb.ts` is not among the shown sources) — a label carrying a vector
(opaque, identified by a number) and the set of event ids associated with the
label. -/
structure EmbEntry where
  label : String
  embeddings : Nat
  eventIds : List Nat
deriving DecidableEq

/-- The persistent state visible to one run: the Prisma store plus the
embedding index.  `nextEventId` models Prisma's autoincrementing event id. -/
structure Store where
  emails : List StoredEmail
  senders : List Sender
  events : List StoredEvent
  ignored : List IgnoredRec
  nextEventId : Nat
  index : List EmbEntry
deriving DecidableEq

/-- A candidate event returned by the extraction oracle. -/
structure CandidateEvent where
  title : String
  dateTime : JsDate
  location : String
  organizer : String
  duration : Int
deriving DecidableEq

/-- Outcome of `extractFromEmail` (typed per its discriminated `status`). -/
inductive OracleResult
  | errorMalformedJson
  | errorNetwork
  | rejectedByGpt3
  | rejectedByGpt4
  | events (evs : List CandidateEvent)
deriving DecidableEq

/-- Modelled from the spec: the external collaborators that live in files of
the repository not shown here.  `model` is `CURRENT_MODEL_NAME` (from
`llm/emailToEvents.ts`); `embed` is `createEmbedding`, a deterministic opaque
vector per title; `knnSelect` is the candidate-label choice made by
`getKNearestNeighbors` (the nearest-neighbor contract: up to `k` labels drawn
from the index — enforced below by filtering on membership); `oracle` is
`extractFromEmail`; `removeArtifacts` and `convert` are the text-cleanup and
HTML-to-text conversions, both out of scope for the spec. -/
structure Env where
  model : String
  now : Int
  embed : String → Nat
  knnSelect : Nat → Nat → List String
  oracle : String → String → Int → OracleResult
  removeArtifacts : String → String
  convert : String → String

/-- `prisma.email.findUnique({ where: { messageId } })`. -/
def lookupEmail (st : Store) (mid : String) : Option StoredEmail :=
  st.emails.find? (fun e => e.messageId == mid)

/-- Modelled from the spec: `getEmbedding(label)` of the Embedding Index. -/
def lookupEntry (idx : List EmbEntry) (label : String) : Option EmbEntry :=
  idx.find? (fun e => e.label == label)

/-- Modelled from the spec: `upsertEmbedding(label, vector, { eventIds })` —
insert the entry if the label is absent; otherwise refresh the vector and
attach the given event ids to the label's id-set (ids already present are not
duplicated). -/
def upsertEntry (idx : List EmbEntry) (label : String) (vec : Nat)
    (ids : List Nat) : List EmbEntry :=
  if (lookupEntry idx label).isSome then
    idx.map (fun e =>
      if e.label == label then
        ⟨e.label, vec, e.eventIds ++ ids.filter (fun i => !e.eventIds.contains i)⟩
      else e)
  else idx ++ [⟨label, vec, ids⟩]

/-- Modelled from the spec: in-place overwrite of an entry's id-set (the
source mutates `metadata.eventIds` of the entry returned by `getEmbedding`). -/
def setEntryIds (idx : List EmbEntry) (label : String) (ids : List Nat) :
    List EmbEntry :=
  idx.map (fun e => if e.label == label then ⟨e.label, e.embeddings, ids⟩ else e)

/-- Modelled from the spec: `deleteEmbedding(label)` removes the entry. -/
def deleteEntry (idx : List EmbEntry) (label : String) : List EmbEntry :=
  idx.filter (fun e => e.label != label)

/-- `prisma.ignoredEmail.upsert` with `update: {}`: insert-or-no-op keyed by
`(scrapedBy, uid)` (the `ignoreThisEmailForever` closure, lines 188-194). -/
def ignoreUpsert (ig : List IgnoredRec) (scrapedBy : String) (uid : Nat)
    (receivedAt : Int) : List IgnoredRec :=
  if ig.any (fun r => r.scrapedBy == scrapedBy && r.uid == uid) then ig
  else ig ++ [⟨scrapedBy, uid, receivedAt⟩]

/-- `connectOrCreate` on the sender relation. -/
def connectOrCreateSender (senders : List Sender) (email name : String) :
    List Sender :=
  if senders.any (fun s => s.email == email) then senders
  else senders ++ [⟨email, name⟩]

/-- `prisma.email.upsert` (source lines 255-274): update only `modelName`
when the identity exists, otherwise create the full record (connecting or
creating the sender). -/
def storeUpsertEmail (st : Store) (rec : StoredEmail) : Store :=
  match lookupEmail st rec.messageId with
  | some _ =>
      { st with emails := st.emails.map (fun e =>
          if e.messageId == rec.messageId then { e with modelName := rec.modelName }
          else e) }
  | none =>
      { st with
          emails := st.emails ++ [rec],
          senders := connectOrCreateSender st.senders rec.senderEmail rec.senderName }

/-- `markProcessedByCurrentModel` (source lines 276-278): set the message's
`modelName` to the current model name. -/
def markProcessedStore (env : Env) (st : Store) (mid : String) : Store :=
  { st with emails := st.emails.map (fun e =>
      if e.messageId == mid then { e with modelName := env.model } else e) }

/-! ### The pipeline driver -/

/-- `ProcessEmailResult` (source lines 167-177). -/
inductive ProcessEmailResult
  | MALFORMED_EMAIL
  | NOT_DORMSPAM
  | DORMSPAM_BUT_ROOT_NOT_IN_DB
  | DORMSPAM_BUT_NOT_EVENT_BY_GPT_3
  | DORMSPAM_BUT_NOT_EVENT_BY_GPT_4
  | DORMSPAM_PROCESSED_WITH_SAME_PROMPT
  | DORMSPAM_BUT_NETWORK_ERROR
  | DORMSPAM_BUT_MALFORMED_JSON
  | DORMSPAM_WITH_EVENT
deriving DecidableEq

/-- How one invocation of `processMail` terminates: a returned result, an
escaped JavaScript exception (the returned promise rejects), or divergence
(the root walk loops forever on a cyclic reply chain). -/
inductive ROutcome
  | ok (r : ProcessEmailResult)
  | thrown
  | diverge
deriving DecidableEq

/-- Labelled actions a task performs, in program order.  Store writes and the
coordinator operations are recorded; pure reads are not. -/
inductive Action
  | register (mid : String)
  | tombstone
  | awaitTask (mid : String)
  | emailUpsert (mid : String)
  | markProcessed (mid : String)
  | deleteEvents (rootId : String)
  | oracleCall
  | eventUpdate (id : Nat)
  | eventCreate (id : Nat)
  | resolveTask
deriving DecidableEq

/-- Result of one `processMail` invocation: the outcome, the post-state, the
trace of actions in program order, and the store writes that were started but
not awaited (the final `markProcessedByCurrentModel()` on the success path). -/
structure Out where
  result : ROutcome
  store : Store
  trace : List Action
  pending : List String

/-- The parsed mail as `processMail` receives it.  `sender` is the `from`
field (`from` is reserved in Lean); `html : Option String` collapses
mailparser's `string | false`, with falsiness of `""` handled where the
source tests `!html`. -/
structure ParsedMailIn where
  messageId : Option String
  sender : Option (List (Option String × Option String))
  html : Option String
  subject : Option String
  date : Option Int
  inReplyTo : Option String
  text : Option String

/-- `!html`: `false`/missing or the empty string. -/
def htmlFalsy (p : ParsedMailIn) : Bool :=
  match p.html with
  | none => true
  | some s => s == ""

/-- The malformedness test of source lines 203-209, with JavaScript's
left-to-right short-circuit evaluation; `none` marks the `TypeError` thrown
by `from.value[0].address` when `from.value` is empty. -/
def malformedTest (p : ParsedMailIn) : Option Bool :=
  match p.messageId with
  | none => some true
  | some _ =>
      match p.sender with
      | none => some true
      | some value =>
          match value with
          | [] => none
          | (address, _) :: _ =>
              some (address.isNone || htmlFalsy p || p.subject.isNone)

/-- The duplicate-identity test of source lines 214-218: a stored email with
the same `messageId` but a different transport `uid`. -/
def conflictCheck (st : Store) (mid : String) (uid : Nat) : Bool :=
  match lookupEmail st mid with
  | some e => e.uid != uid
  | none => false

/-- Result of the backward root walk. -/
inductive WalkRes
  | found (root : StoredEmail)
  | notFound
  | exhausted
deriving DecidableEq

/-- The backward walk of source lines 238-243: follow `inReplyToId` links
through the store until a message with no parent link is found.  The source
performs this loop without cycle detection; `fuel` bounds the embedding, and
running out of fuel after visiting more emails than the store holds
(`st.emails.length + 1` at the call site) means a link was revisited, i.e.
the JavaScript loop diverges. -/
def rootWalk (st : Store) : Nat → StoredEmail → WalkRes
  | 0, _ => .exhausted
  | fuel + 1, e =>
      match e.inReplyToId with
      | none => .found e
      | some pid =>
          match lookupEmail st pid with
          | none => .notFound
          | some e2 => rootWalk st fuel e2

/-- The thread-root resolution of source lines 230-244: a non-reply message
is its own thread root (`rootMessageId = messageId`); a reply's root is the
end of the backward walk, provided the parent is stored and the walk
terminates at a message with no parent link.  `none` when the pipeline
exits early (`DORMSPAM_BUT_ROOT_NOT_IN_DB`) or diverges on a cycle. -/
def resolvedRoot (st : Store) (p : ParsedMailIn) : Option String :=
  match p.inReplyTo with
  | none => p.messageId
  | some pid =>
      match lookupEmail st pid with
      | none => none
      | some pe =>
          match rootWalk st (st.emails.length + 1) pe with
          | .found root => some root.messageId
          | _ => none

/-- The scan result of the doubly-nested neighbor loop (lines 327-359):
no decision yet, drop the candidate (`merged === "latter"`), overwrite a
stored event (`merged === "former"`, remembering the neighbor label whose
metadata is edited), or the `TypeError` from `mergeEvents`'s non-null
assertion. -/
inductive ScanOut
  | noMatch
  | keep (eid : Nat)
  | sup (eid : Nat) (label : String)
  | crash
deriving DecidableEq

/-- The stored event as `mergeEvents` sees it (`include fromEmail` supplies
the owning email's `receivedAt` through the relation). -/
def storedMergeArg (st : Store) (se : StoredEvent) : MergeArg :=
  ⟨se.date, se.location, (lookupEmail st se.fromEmailId).map (fun e => ⟨e.receivedAt⟩)⟩

/-- The inner loop over one neighbor label's event ids (lines 329-358):
ids not present in the store are skipped with a warning. -/
def scanIds (st : Store) (cand : MergeArg) (label : String) :
    List Nat → ScanOut
  | [] => .noMatch
  | eid :: rest =>
      match st.events.find? (fun e => e.id == eid) with
      | none => scanIds st cand label rest
      | some se =>
          match mergeEvents cand (storedMergeArg st se) with
          | some .latter => .keep eid
          | some .former => .sup eid label
          | some .unmergable => scanIds st cand label rest
          | none => .crash

/-- The outer loop over the k-nearest-neighbor labels (line 327). -/
def scanLabels (st : Store) (cand : MergeArg) : List String → ScanOut
  | [] => .noMatch
  | label :: rest =>
      match lookupEntry st.index label with
      | none => scanLabels st cand rest
      | some entry =>
          match scanIds st cand label entry.eventIds with
          | .noMatch => scanLabels st cand rest
          | r => r

/-- The merge decision reached for one candidate event. -/
inductive MergeDecision
  | keepExisting (eid : Nat)
  | supersede (eid : Nat)
  | insert (eid : Nat)
  | crashed
deriving DecidableEq

/-- `newEventData` (source lines 317-326). -/
def newEventData (ev : CandidateEvent) (rootId : String) (text : String)
    (eid : Nat) : StoredEvent :=
  ⟨eid, ev.dateTime, ev.title, ev.location, ev.organizer, ev.duration, rootId, text⟩

/-- One iteration of the `outer:` loop (source lines 313-363): upsert the
candidate's title into the index with an empty id-set, query the k nearest
neighbors, scan them for a mergeable stored event, and apply the decision's
effects.  On `supersede`, the index edit uses the metadata captured before
the upsert of the candidate title, as the source destructures `metadata`
at line 328 before the upsert at line 348 (when the neighbor label equals
the candidate title the source's in-place array mutation makes the outcome
depend on `vectordb.ts` internals; the snapshot reading is used here). -/
def mergeCandidate (env : Env) (rootId : String) (recvAt : Int) (text : String)
    (st : Store) (ev : CandidateEvent) : MergeDecision × Store × List Action :=
  let vec := env.embed ev.title
  let st1 := { st with index := upsertEntry st.index ev.title vec [] }
  let labels := (env.knnSelect vec 3).filter (fun l => (lookupEntry st1.index l).isSome)
  let cand : MergeArg := ⟨ev.dateTime, ev.location, some ⟨recvAt⟩⟩
  match scanLabels st1 cand labels with
  | .keep eid => (.keepExisting eid, st1, [])
  | .sup eid label =>
      let idx2 := upsertEntry st1.index ev.title vec [eid]
      let snapshot := ((lookupEntry st1.index label).map (fun e => e.eventIds)).getD []
      let ids' := snapshot.filter (fun i => i != eid)
      let idx3 :=
        if ids'.isEmpty then deleteEntry idx2 label else setEntryIds idx2 label ids'
      let st4 := { st1 with
          index := idx3,
          events := st1.events.map (fun e =>
            if e.id == eid then newEventData ev rootId text eid else e) }
      (.supersede eid, st4, [.eventUpdate eid])
  | .crash => (.crashed, st1, [])
  | .noMatch =>
      let nid := st1.nextEventId
      let st2 := { st1 with
          events := st1.events ++ [newEventData ev rootId text nid],
          nextEventId := nid + 1 }
      let st3 := { st2 with index := upsertEntry st2.index ev.title vec [nid] }
      (.insert nid, st3, [.eventCreate nid])

/-- Fold of the `outer:` loop over all candidate events; the boolean flags
an escaped `TypeError` (effects before the throw persist). -/
def processCandidates (env : Env) (rootId : String) (recvAt : Int)
    (text : String) : List CandidateEvent → Store → Bool × Store × List Action
  | [], st => (false, st, [])
  | ev :: rest, st =>
      match mergeCandidate env rootId recvAt text st ev with
      | (.crashed, st', tr) => (true, st', tr)
      | (_, st', tr) =>
          let out := processCandidates env rootId recvAt text rest st'
          (out.1, out.2.1, tr ++ out.2.2)

/-- The tail of the pipeline from the extraction call on (source lines
297-367). -/
def extractStage (env : Env) (mid : String) (subj text : String)
    (receivedAt : Int) (rootId : String) (st : Store) (tr : List Action) :
    ROutcome × Store × List Action × List String :=
  let tr := tr ++ [.oracleCall]
  match env.oracle subj text receivedAt with
  | .errorMalformedJson => (.ok .DORMSPAM_BUT_MALFORMED_JSON, st, tr, [])
  | .errorNetwork => (.ok .DORMSPAM_BUT_NETWORK_ERROR, st, tr, [])
  | .rejectedByGpt3 =>
      (.ok .DORMSPAM_BUT_NOT_EVENT_BY_GPT_3, markProcessedStore env st mid,
        tr ++ [.markProcessed mid], [])
  | .rejectedByGpt4 =>
      (.ok .DORMSPAM_BUT_NOT_EVENT_BY_GPT_4, markProcessedStore env st mid,
        tr ++ [.markProcessed mid], [])
  | .events evs =>
      match processCandidates env rootId receivedAt text evs st with
      | (true, st', tr') => (.thrown, st', tr ++ tr', [])
      | (false, st', tr') => (.ok .DORMSPAM_WITH_EVENT, st', tr ++ tr', [mid])

/-- The main stage from the message upsert on (source lines 255-367): upsert
the message as processing, look for an event anchored to the resolved root,
short-circuit or invalidate stale events, then extract and merge.  Note the
final `markProcessedByCurrentModel()` on the success path is issued without
`await`: it is returned in the pending list, not applied to the store. -/
def mainStage (env : Env) (scrapedBy : String) (uid : Nat) (mid : String)
    (senderAddress senderName subj html text : String) (receivedAt : Int)
    (replyTo : Option String) (rootId : String) (trPre : List Action)
    (st : Store) : ROutcome × Store × List Action × List String :=
  let rec0 : StoredEmail :=
    ⟨mid, scrapedBy, uid, senderAddress, senderName, subj, html, receivedAt,
      env.model ++ "_PROCESSING", replyTo⟩
  let st1 := storeUpsertEmail st rec0
  let tr1 := trPre ++ [.emailUpsert mid]
  match st1.events.find? (fun e => e.fromEmailId == rootId) with
  | some _ =>
      let rootModel := (lookupEmail st1 rootId).map (fun e => e.modelName)
      if rootModel == some env.model then
        (.ok .DORMSPAM_PROCESSED_WITH_SAME_PROMPT, markProcessedStore env st1 mid,
          tr1 ++ [.markProcessed mid], [])
      else
        let st2 := { st1 with events := st1.events.filter (fun e => e.fromEmailId != rootId) }
        extractStage env mid subj text receivedAt rootId st2 (tr1 ++ [.deleteEvents rootId])
  | none => extractStage env mid subj text receivedAt rootId st1 tr1

/-- The synchronous prefix of a task: creating the deferred and registering
it under the message id when one is present (source lines 199-201). -/
def regOf (parsed : ParsedMailIn) : List Action :=
  match parsed.messageId with
  | some m => [.register m]
  | none => []

/-- The body of `processMail` (source lines 179-367), before the `finally`
that resolves the task's deferred. -/
def processMailBody (env : Env) (scrapedBy : String) (uid : Nat)
    (parsed : ParsedMailIn) (tasks : List String) (st : Store) :
    ROutcome × Store × List Action × List String :=
  let receivedAt := parsed.date.getD env.now
  let reg : List Action := regOf parsed
  match malformedTest parsed with
  | none => (.thrown, st, reg, [])
  | some true =>
      (.ok .MALFORMED_EMAIL,
        { st with ignored := ignoreUpsert st.ignored scrapedBy uid receivedAt },
        reg ++ [.tombstone], [])
  | some false =>
      match parsed.messageId, parsed.sender, parsed.html, parsed.subject with
      | some mid, some ((address, name) :: _), some html, some subj =>
          if conflictCheck st mid uid then
            (.ok .MALFORMED_EMAIL,
              { st with ignored := ignoreUpsert st.ignored scrapedBy uid receivedAt },
              reg ++ [.tombstone], [])
          else
            let senderAddress := address.getD ""
            let senderName := name.getD senderAddress
            let text := env.removeArtifacts (parsed.text.getD (env.convert html))
            if !isDormspam text then
              (.ok .NOT_DORMSPAM,
                { st with ignored := ignoreUpsert st.ignored scrapedBy uid receivedAt },
                reg ++ [.tombstone], [])
            else
              match parsed.inReplyTo with
              | none =>
                  mainStage env scrapedBy uid mid senderAddress senderName subj
                    html text receivedAt none mid reg st
              | some pid =>
                  match lookupEmail st pid with
                  | none => (.ok .DORMSPAM_BUT_ROOT_NOT_IN_DB, st, reg, [])
                  | some pe =>
                      match rootWalk st (st.emails.length + 1) pe with
                      | .notFound => (.ok .DORMSPAM_BUT_ROOT_NOT_IN_DB, st, reg, [])
                      | .exhausted => (.diverge, st, reg, [])
                      | .found root =>
                          let awaitTr : List Action :=
                            if pe.messageId ∈ tasks then [.awaitTask pe.messageId]
                            else []
                          mainStage env scrapedBy uid mid senderAddress senderName
                            subj html text receivedAt (some pid) root.messageId
                            (reg ++ awaitTr) st
      | _, _, _, _ => (.thrown, st, reg, [])

/-- `processMail` with its `try`/`finally`: whenever the body exits — by
return or by throw — the deferred is resolved; on divergence it never is. -/
def processMail (env : Env) (scrapedBy : String) (uid : Nat)
    (parsed : ParsedMailIn) (tasks : List String) (st : Store) : Out :=
  match processMailBody env scrapedBy uid parsed tasks st with
  | (.diverge, st', tr, pend) => ⟨.diverge, st', tr, pend⟩
  | (r, st', tr, pend) => ⟨r, st', tr ++ [.resolveTask], pend⟩

/-! ### The run-level uid filter (source lines 30-57) -/

/-- `Math.min(...allUids)` for a nonempty list. -/
def minUidOf : List Nat → Nat
  | [] => 0
  | x :: xs => xs.foldl Nat.min x

/-- The unseen-uid computation of `fetchEmailsAndExtractEvents` (lines
41-56): uids whose `(scrapedBy, uid)` is in the ignored ledger, or whose
email is already processed with the current model, are excluded before any
message is fetched or processed. -/
def candidateUids (env : Env) (user : String) (allUids : List Nat)
    (st : Store) : List Nat :=
  let minUid := minUidOf allUids
  let ignoredUids := (st.ignored.filter
    (fun r => r.scrapedBy == user && minUid ≤ r.uid)).map (fun r => r.uid)
  let processedUids := (st.emails.filter
    (fun e => e.scrapedBy == user && minUid ≤ e.uid && e.modelName == env.model)).map
      (fun e => e.uid)
  let seenUids := ignoredUids ++ processedUids
  allUids.filter (fun uid => !seenUids.contains uid)

/-! ### Schedules of concurrently interleaved tasks

A run schedules many `processMail` tasks concurrently.  A schedule is the
global interleaving of the tasks' actions; it is valid when awaiting a
registered deferred suspends the awaiting task until the owner resolves. -/

/-- The actions of task `b` in a schedule, in order. -/
def projTask (sched : List (String × Action)) (b : String) : List Action :=
  sched.filterMap (fun e => if e.1 == b then some e.2 else none)

/-- `Precedes x y l`: every occurrence of `y` in `l` has an occurrence of `x`
strictly before it. -/
def Precedes {α : Type} (x y : α) (l : List α) : Prop :=
  ∀ k, l.get? k = some y → ∃ j < k, l.get? j = some x

/-- Validity of a schedule with respect to an ownership map (which task
registered which message id): a one-shot deferred can only be awaited past
after its owner resolved, so in any valid interleaving every `awaitTask p`
occurrence comes after the owner's `resolveTask`. -/
def ValidSchedule (owner : String → Option String)
    (sched : List (String × Action)) : Prop :=
  ∀ k b p, sched.get? k = some (b, .awaitTask p) →
    ∀ a, owner p = some a → ∃ j < k, sched.get? j = some (a, .resolveTask)

/-- A persistent-store write, as an action kind. -/
def isStoreWrite : Action → Bool
  | .tombstone => true
  | .emailUpsert _ => true
  | .markProcessed _ => true
  | .deleteEvents _ => true
  | .eventUpdate _ => true
  | .eventCreate _ => true
  | _ => false

/-! ### Concrete instances used by witnesses and counterexamples -/

/-- An all-day timestamp. -/
def exDate : JsDate := ⟨100, 0, 0, 3⟩

/-- A stored root email, received at time 0, processed by an older model. -/
def exRootEmail : StoredEmail :=
  ⟨"root", "scraper", 1, "s@mit.edu", "S", "subj", "body", 0, "OLD", none⟩

/-- A stored event anchored to `exRootEmail`. -/
def exStoredEvent : StoredEvent :=
  ⟨1, exDate, "Lecture", "unknown", "org", 60, "root", "txt"⟩

/-- A concrete environment: one neighbor label, an oracle returning no
events. -/
def exEnv : Env :=
  ⟨"GPT", 0, fun _ => 0, fun _ _ => ["Lecture"], fun _ _ _ => .events [], id, id⟩

/-- A concrete store holding the root email, its event, and the event's
index entry. -/
def exStore : Store :=
  ⟨[exRootEmail], [], [exStoredEvent], [], 2, [⟨"Lecture", 0, [1]⟩]⟩

/-- A candidate event mergeable with `exStoredEvent` (same all-day date,
wildcard location) under a different title. -/
def exCand : CandidateEvent := ⟨"Lecture 2", exDate, "unknown", "org", 60⟩

/-- Sequential execution of several messages in one run (one schedule of the
concurrent tasks), threading the store. -/
def runSeq (env : Env) (scrapedBy : String) (tasks : List String) :
    List (Nat × ParsedMailIn) → Store → List ROutcome × Store
  | [], st => ([], st)
  | (uid, p) :: rest, st =>
      let out := processMail env scrapedBy uid p tasks st
      let next := runSeq env scrapedBy tasks rest out.store
      (out.result :: next.1, next.2)

/-- A well-formed, non-conflicting dormspam reply whose backward reply chain
has an ancestor missing from the store (the deferred-retry situation of
claim C7). -/
def deferredRetryInput (env : Env) (st : Store) (uid : Nat)
    (p : ParsedMailIn) : Prop :=
  ∃ mid addr nm srest html subj pid,
    p.messageId = some mid ∧
    p.sender = some ((some addr, nm) :: srest) ∧
    p.html = some html ∧ html ≠ "" ∧
    p.subject = some subj ∧
    conflictCheck st mid uid = false ∧
    isDormspam (env.removeArtifacts (p.text.getD (env.convert html))) = true ∧
    p.inReplyTo = some pid ∧
    (lookupEmail st pid = none ∨
      ∃ pe, lookupEmail st pid = some pe ∧
        rootWalk st (st.emails.length + 1) pe = .notFound)

/-- Actions that are not coordinator awaits. -/
def noAwait : Action → Bool
  | .awaitTask _ => false
  | _ => true

/-- An empty store. -/
def exEmptyStore : Store := ⟨[], [], [], [], 0, []⟩

/-- A well-formed dormspam message, not a reply. -/
def exParsed : ParsedMailIn :=
  ⟨some "m1", some [(some "a@mit.edu", some "A")], some "body", some "subj",
    some 7, none, some "bcc to dorms hello"⟩

/-- A well-formed dormspam message carrying the identity of `exRootEmail`
(and its uid), used to re-process the root after a version bump. -/
def exParsedRoot : ParsedMailIn :=
  ⟨some "root", some [(some "s@mit.edu", some "S")], some "body", some "subj",
    some 0, none, some "bcc to dorms"⟩

/-- A parent message for the schedule counterexample. -/
def exParsedA : ParsedMailIn :=
  ⟨some "rootA", some [(some "a@mit.edu", none)], some "b", some "s",
    some 1, none, some "bcc to dorms"⟩

/-- A reply to `exParsedA` that is not dormspam. -/
def exParsedB : ParsedMailIn :=
  ⟨some "mB", some [(some "b@mit.edu", none)], some "b", some "s",
    some 3, some "rootA", some "hello"⟩

/-- A dormspam reply whose parent was never stored. -/
def exParsedC : ParsedMailIn :=
  ⟨some "mC", some [(some "c@mit.edu", none)], some "b", some "s",
    some 4, some "ghost", some "bcc to dorms"⟩

/-- A structurally malformed message (no identity, sender, body or
subject). -/
def exParsedBad : ParsedMailIn := ⟨none, none, none, none, none, none, none⟩

/-- A well-formed message claiming the identity of `exRootEmail` under a
different transport uid. -/
def exParsedDup : ParsedMailIn :=
  ⟨some "root", some [(some "x@mit.edu", none)], some "b", some "s",
    some 5, none, some "whatever"⟩

/-- A dormspam reply to `exParsedC` (whose own parent is missing), for the
depth-2 deferred-retry chain. -/
def exParsedD : ParsedMailIn :=
  ⟨some "mD", some [(some "d@mit.edu", none)], some "b", some "s",
    some 5, some "mC", some "bcc to dorms"⟩

/-- A store holding the root email and one tombstone, for the malformedness
and uid-filter witnesses. -/
def exStoreC8 : Store := ⟨[exRootEmail], [], [], [⟨"scraper", 1, 5⟩], 0, []⟩

/-- The trace of the parent task `exParsedA` on the empty store. -/
def exTraceA : List Action :=
  (processMail exEnv "scraper" 2 exParsedA [] exEmptyStore).trace

/-- The trace of the reply task `exParsedB`, with the parent registered. -/
def exTraceB : List Action :=
  (processMail exEnv "scraper" 3 exParsedB ["rootA"] exEmptyStore).trace

/-- A schedule running the whole reply task before the parent task. -/
def exSched : List (String × Action) :=
  exTraceB.map (fun a => ("mB", a)) ++ exTraceA.map (fun a => ("rootA", a))

/-- Ownership map for the schedule counterexample: the parent's message id
is registered by the parent task. -/
def exOwner : String → Option String :=
  fun p => if p == "rootA" then some "rootA" else none

/-- A dormspam reply to the stored root email `exRootEmail`. -/
def exParsedE : ParsedMailIn :=
  ⟨some "mE", some [(some "e@mit.edu", none)], some "b", some "s",
    some 9, some "root", some "bcc to dorms"⟩

/-- The trace of the reply task `exParsedE` on `exStore`, with the parent's
message id registered as a live task. -/
def exTraceE : List Action :=
  (processMail exEnv "scraper" 7 exParsedE ["root"] exStore).trace

/-- A schedule where the parent task `A` registers and resolves before the
reply task runs. -/
def exSchedE : List (String × Action) :=
  [("A", .register "root"), ("A", .resolveTask)] ++
    exTraceE.map (fun a => ("mE", a))

/-- Ownership map for the valid-schedule witness: the parent's message id is
registered by task `A`. -/
def exOwnerE : String → Option String :=
  fun q => if q == "root" then some "A" else none

theorem leadsWith_iff (p l : List Char) :
    leadsWith p l = true ↔ ∃ r, l = p ++ r := by
  induction p generalizing l with
  | nil => simp [leadsWith]
  | cons c cs ih =>
      cases l with
      | nil => simp [leadsWith]
      | cons x xs =>
          simp only [leadsWith, Bool.and_eq_true, beq_iff_eq, ih]
          constructor
          · rintro ⟨rfl, r, rfl⟩; exact ⟨r, rfl⟩
          · rintro ⟨r, h⟩
            cases h
            exact ⟨rfl, r, rfl⟩

theorem occursIn_iff (p l : List Char) :
    occursIn p l = true ↔ ∃ l1 l2, l = l1 ++ p ++ l2 := by
  induction l with
  | nil =>
      simp only [occursIn, leadsWith_iff]
      constructor
      · rintro ⟨r, h⟩; exact ⟨[], r, h⟩
      · rintro ⟨l1, l2, h⟩
        rcases List.append_eq_nil.mp h.symm with ⟨h12, h3⟩
        rcases List.append_eq_nil.mp h12 with ⟨h1, hp⟩
        exact ⟨[], by simp [hp]⟩
  | cons c cs ih =>
      simp only [occursIn, Bool.or_eq_true, leadsWith_iff, ih]
      constructor
      · rintro (⟨r, h⟩ | ⟨l1, l2, h⟩)
        · exact ⟨[], r, by simpa using h⟩
        · exact ⟨c :: l1, l2, by simp [h]⟩
      · rintro ⟨l1, l2, h⟩
        cases l1 with
        | nil => exact Or.inl ⟨l2, by simpa using h⟩
        | cons a as =>
            right
            refine ⟨as, l2, ?_⟩
            have h' : c :: cs = a :: (as ++ (p ++ l2)) := by simpa using h
            rcases List.cons_eq_cons.mp h' with ⟨-, h2⟩
            simpa [List.append_assoc] using h2

theorem includesCI_iff (a b : String) :
    includesCI a b = true ↔ SubstringCI b a := by
  unfold includesCI SubstringCI
  rw [occursIn_iff]

/-- The date-compatibility boolean of `mergeEvents` agrees with the
specification's wording of the date test. -/
theorem sameDateBool_iff (e1 e2 : MergeArg) :
    (((isAllDay e1.date || isAllDay e2.date) && (e1.date.day == e2.date.day)) ||
      (e1.date.time == e2.date.time)) = true ↔ specDateCompatible e1 e2 := by
  simp only [isAllDay, specDateCompatible, specAllDayMarker, Bool.or_eq_true,
    Bool.and_eq_true, beq_iff_eq]
  tauto

/-- The location-compatibility boolean of `mergeEvents` agrees with the
specification's wording of the location test. -/
theorem sameLocationBool_iff (e1 e2 : MergeArg) :
    ((lowerStr e1.location == "unknown".toList) ||
      (lowerStr e2.location == "unknown".toList) ||
      includesCI e1.location e2.location ||
      includesCI e2.location e1.location) = true ↔
      specLocationCompatible e1 e2 := by
  simp only [specLocationCompatible, Bool.or_eq_true, beq_iff_eq, includesCI_iff]
  tauto

/-- Claim C5: `mergeEvents` returns a mergeable decision (not `unmergable`)
iff the date-compatibility test and the location-compatibility test both pass,
the tests being exactly as the specification words them.  The hypotheses pin
the `fromEmail` fields to be present, matching the source's non-null
assertions at the tie-break. -/
theorem claim_C5 (e1 e2 : MergeArg) (f1 f2 : EmailRef)
    (h1 : e1.fromEmail = some f1) (h2 : e2.fromEmail = some f2) :
    mergeEvents e1 e2 ≠ some MergeRes.unmergable ↔
      specDateCompatible e1 e2 ∧ specLocationCompatible e1 e2 := by
  rw [← sameDateBool_iff, ← sameLocationBool_iff]
  simp only [mergeEvents, h1, h2]
  cases hdb : ((isAllDay e1.date || isAllDay e2.date) &&
      (e1.date.day == e2.date.day)) || (e1.date.time == e2.date.time) with
  | false => simp [hdb]
  | true =>
      cases hlb : (lowerStr e1.location == "unknown".toList) ||
          (lowerStr e2.location == "unknown".toList) ||
          includesCI e1.location e2.location ||
          includesCI e2.location e1.location with
      | false => simp [hlb]
      | true =>
          simp only [Bool.not_true, Bool.false_eq_true, if_false, true_and]
          constructor
          · intro _; trivial
          · intro _
            split <;> simp

/-- Witness for claim C5 at a concrete input: an all-day candidate at a
wildcard location against a timed event on the same weekday is mergeable. -/
theorem claim_C5_witness :
    (⟨⟨1709251200000, 0, 0, 5⟩, "Unknown", some ⟨10⟩⟩ : MergeArg).fromEmail
        = some ⟨10⟩ ∧
    (mergeEvents ⟨⟨1709251200000, 0, 0, 5⟩, "Unknown", some ⟨10⟩⟩
        ⟨⟨1709316000000, 18, 0, 5⟩, "Building 10", some ⟨20⟩⟩
        ≠ some MergeRes.unmergable ↔
      specDateCompatible ⟨⟨1709251200000, 0, 0, 5⟩, "Unknown", some ⟨10⟩⟩
          ⟨⟨1709316000000, 18, 0, 5⟩, "Building 10", some ⟨20⟩⟩ ∧
        specLocationCompatible ⟨⟨1709251200000, 0, 0, 5⟩, "Unknown", some ⟨10⟩⟩
          ⟨⟨1709316000000, 18, 0, 5⟩, "Building 10", some ⟨20⟩⟩) :=
  ⟨rfl, claim_C5 _ _ ⟨10⟩ ⟨20⟩ rfl rfl⟩

/-! ### Correctness of the classifier's matcher (claim C9) -/

theorem matchChars_nil_toks (l : List Char) : matchChars l [] = true := by
  cases l <;> rfl

theorem matchChars_nil_cons (t : Tok) (ts : List Tok) :
    matchChars [] (t :: ts) = false := rfl

theorem matchChars_cons_lit (x : Char) (xs : List Char) (c : Char)
    (ts : List Tok) :
    matchChars (x :: xs) (.lit c :: ts) =
      ((c.toLower == x.toLower) && matchChars xs ts) := rfl

theorem matchChars_cons_gap (x : Char) (xs : List Char) (ts : List Tok) :
    matchChars (x :: xs) (.gap :: ts) =
      (isWS x && (matchChars xs ts || matchChars xs (.gap :: ts))) := rfl

theorem matchChars_lits_iff (w : List Char) (ts : List Tok) (l : List Char) :
    matchChars l (w.map .lit ++ ts) = true ↔
      ∃ u rest, l = u ++ rest ∧ CIEqList w u ∧ matchChars rest ts = true := by
  induction w generalizing l with
  | nil =>
      simp only [List.map_nil, List.nil_append]
      constructor
      · intro h; exact ⟨[], l, rfl, rfl, h⟩
      · rintro ⟨u, rest, rfl, hci, h⟩
        have hu : u = [] := by
          have hlen := congrArg List.length hci
          simpa using List.eq_nil_of_length_eq_zero (by simpa using hlen.symm)
        simpa [hu] using h
  | cons c w' ih =>
      rw [List.map_cons, List.cons_append]
      cases l with
      | nil =>
          rw [matchChars_nil_cons]
          constructor
          · intro h; cases h
          · rintro ⟨u, rest, h, hci, -⟩
            exfalso
            cases u with
            | nil => exact absurd (congrArg List.length hci) (by simp)
            | cons a as => simp at h
      | cons x xs =>
          rw [matchChars_cons_lit, Bool.and_eq_true, beq_iff_eq, ih]
          constructor
          · rintro ⟨hc, u, rest, rfl, hci, h⟩
            refine ⟨x :: u, rest, rfl, ?_, h⟩
            unfold CIEqList at hci ⊢
            simp [hc, hci]
          · rintro ⟨u, rest, h, hci, hm⟩
            cases u with
            | nil => exact absurd (congrArg List.length hci) (by simp)
            | cons a as =>
                rcases List.cons_eq_cons.mp h with ⟨rfl, rfl⟩
                simp only [CIEqList, List.map_cons, List.cons_eq_cons] at hci
                exact ⟨hci.1, as, rest, rfl, hci.2, hm⟩

theorem matchChars_gap_iff (ts : List Tok) (l : List Char) :
    matchChars l (.gap :: ts) = true ↔
      ∃ g rest, l = g ++ rest ∧ g ≠ [] ∧ (∀ c ∈ g, isWS c = true) ∧
        matchChars rest ts = true := by
  induction l with
  | nil =>
      rw [matchChars_nil_cons]
      constructor
      · intro h; cases h
      · rintro ⟨g, rest, h, hne, -, -⟩
        exact absurd (List.append_eq_nil.mp h.symm).1 hne
  | cons x xs ih =>
      rw [matchChars_cons_gap, Bool.and_eq_true, Bool.or_eq_true]
      constructor
      · rintro ⟨hws, h | h⟩
        · exact ⟨[x], xs, rfl, by simp, by simpa using hws, h⟩
        · rcases ih.mp h with ⟨g, rest, rfl, hne, hg, hm⟩
          exact ⟨x :: g, rest, rfl, by simp,
            by simpa [hws] using hg, hm⟩
      · rintro ⟨g, rest, h, hne, hg, hm⟩
        cases g with
        | nil => exact absurd rfl hne
        | cons a as =>
            rcases List.cons_eq_cons.mp h with ⟨rfl, rfl⟩
            refine ⟨hg x (by simp), ?_⟩
            cases as with
            | nil => exact Or.inl (by simpa using hm)
            | cons b bs =>
                exact Or.inr (ih.mpr ⟨b :: bs, rest, rfl, by simp,
                  fun c hc => hg c (by simp [hc]), hm⟩)

theorem flexMatch_not_nil {m : List Char} (h : FlexMatch [] m) : False := by
  cases h

theorem flexMatch_single_iff (w : List Char) (m : List Char) :
    FlexMatch [w] m ↔ CIEqList w m := by
  constructor
  · intro h
    cases h with
    | single h => exact h
    | cons _ _ _ h => exact absurd h flexMatch_not_nil
  · exact .single

theorem matchChars_words_iff (ws : List (List Char)) (l : List Char)
    (hne : ws ≠ []) :
    matchChars l (toksOfWords ws) = true ↔
      ∃ m rest, l = m ++ rest ∧ FlexMatch ws m := by
  induction ws generalizing l with
  | nil => exact absurd rfl hne
  | cons w ws' ih =>
      cases ws' with
      | nil =>
          have h0 : toksOfWords [w] = w.map .lit ++ [] := by
            simp [toksOfWords]
          rw [h0, matchChars_lits_iff]
          constructor
          · rintro ⟨u, rest, rfl, hci, -⟩
            exact ⟨u, rest, rfl, .single hci⟩
          · rintro ⟨m, rest, rfl, hf⟩
            exact ⟨m, rest, rfl, (flexMatch_single_iff _ _).mp hf,
              matchChars_nil_toks rest⟩
      | cons w' ws'' =>
          have h0 : toksOfWords (w :: w' :: ws'') =
              w.map .lit ++ (.gap :: toksOfWords (w' :: ws'')) := by
            simp [toksOfWords]
          rw [h0, matchChars_lits_iff]
          constructor
          · rintro ⟨u, r1, rfl, hci, hm⟩
            rcases (matchChars_gap_iff _ _).mp hm with ⟨g, r2, rfl, hgne, hg, hm2⟩
            rcases (ih r2 (by simp)).mp hm2 with ⟨m', r3, rfl, hf⟩
            refine ⟨u ++ g ++ m', r3, by simp, .cons hci hgne hg hf⟩
          · rintro ⟨m, rest, rfl, hf⟩
            cases hf with
            | cons hci hgne hg hf' =>
                rename_i u g rest'
                refine ⟨u, g ++ rest' ++ rest, by simp, hci, ?_⟩
                refine (matchChars_gap_iff _ _).mpr
                  ⟨g, rest' ++ rest, by simp, hgne, hg, ?_⟩
                exact (ih (rest' ++ rest) (by simp)).mpr ⟨rest', rest, rfl, hf'⟩

theorem searchToks_iff (ts : List Tok) (l : List Char) :
    searchToks ts l = true ↔
      ∃ before suf, l = before ++ suf ∧ matchChars suf ts = true := by
  induction l with
  | nil =>
      simp only [searchToks]
      constructor
      · intro h; exact ⟨[], [], rfl, h⟩
      · rintro ⟨before, suf, h, hm⟩
        rcases List.append_eq_nil.mp h.symm with ⟨rfl, rfl⟩
        exact hm
  | cons c cs ih =>
      simp only [searchToks, Bool.or_eq_true, ih]
      constructor
      · rintro (h | ⟨before, suf, rfl, hm⟩)
        · exact ⟨[], c :: cs, rfl, h⟩
        · exact ⟨c :: before, suf, rfl, hm⟩
      · rintro ⟨before, suf, h, hm⟩
        cases before with
        | nil => exact Or.inl (by simpa using h ▸ hm)
        | cons b bs =>
            rcases List.cons_eq_cons.mp h with ⟨rfl, rfl⟩
            exact Or.inr ⟨bs, suf, rfl, hm⟩

theorem keyword_toks :
    ∀ k ∈ dormspamKeywords, toToks k.toList = toksOfWords (k.toList.splitOn ' ') := by
  decide

theorem keyword_words_ne :
    ∀ k ∈ dormspamKeywords, k.toList.splitOn ' ' ≠ [] := by
  decide

/-- Claim C9: `isDormspam` is a pure predicate returning true iff the text
contains — case-insensitively, with every whitespace run acting as one
flexible separator — at least one of the fixed dormspam signature phrases
(`FlexMatch` renders the spec's reading of a phrase as its space-separated
words joined by arbitrary nonempty whitespace runs), and false for any text
containing none of them. -/
theorem claim_C9 (text : String) :
    isDormspam text = true ↔
      ∃ k ∈ dormspamKeywords, ∃ before m suf,
        text.toList = before ++ m ++ suf ∧
          FlexMatch (k.toList.splitOn ' ') m := by
  unfold isDormspam
  rw [List.any_eq_true]
  constructor
  · rintro ⟨k, hk, hs⟩
    rcases (searchToks_iff _ _).mp hs with ⟨before, suf0, hdec, hm⟩
    rw [keyword_toks k hk] at hm
    rcases (matchChars_words_iff _ _ (keyword_words_ne k hk)).mp hm
      with ⟨m, suf, rfl, hf⟩
    exact ⟨k, hk, before, m, suf, by rw [hdec, List.append_assoc], hf⟩
  · rintro ⟨k, hk, before, m, suf, hdec, hf⟩
    refine ⟨k, hk, ?_⟩
    rw [searchToks_iff]
    refine ⟨before, m ++ suf, by rw [hdec, List.append_assoc], ?_⟩
    rw [keyword_toks k hk, matchChars_words_iff _ _ (keyword_words_ne k hk)]
    exact ⟨m, suf, rfl, hf⟩

/-! ### The merge tie-break (claim C2) -/

theorem mergeEvents_latter (e1 e2 : MergeArg)
    (h : mergeEvents e1 e2 = some .latter) :
    ∃ f1 f2, e1.fromEmail = some f1 ∧ e2.fromEmail = some f2 ∧
      f1.receivedAt ≤ f2.receivedAt := by
  unfold mergeEvents at h
  split at h
  · simp at h
  · split at h
    · simp at h
    · split at h
      · rename_i f1 f2 h1 h2
        split at h
        · exact ⟨f1, f2, h1, h2, by assumption⟩
        · simp at h
      · simp at h

theorem mergeEvents_former (e1 e2 : MergeArg)
    (h : mergeEvents e1 e2 = some .former) :
    ∃ f1 f2, e1.fromEmail = some f1 ∧ e2.fromEmail = some f2 ∧
      f2.receivedAt < f1.receivedAt := by
  unfold mergeEvents at h
  split at h
  · simp at h
  · split at h
    · simp at h
    · split at h
      · rename_i f1 f2 h1 h2
        split at h
        · simp at h
        · rename_i hle
          exact ⟨f1, f2, h1, h2, by omega⟩
      · simp at h

theorem scanIds_keep_spec (st : Store) (cand : MergeArg) (label : String)
    (ids : List Nat) (eid : Nat)
    (h : scanIds st cand label ids = .keep eid) :
    ∃ se, st.events.find? (fun e => e.id == eid) = some se ∧
      mergeEvents cand (storedMergeArg st se) = some .latter := by
  induction ids with
  | nil => simp [scanIds] at h
  | cons i rest ih =>
      rw [scanIds] at h
      split at h
      · exact ih h
      · rename_i se hfind
        split at h
        · rename_i hmerge
          cases h
          exact ⟨se, hfind, hmerge⟩
        · simp at h
        · exact ih h
        · simp at h

theorem scanIds_sup_spec (st : Store) (cand : MergeArg) (label : String)
    (ids : List Nat) (eid : Nat) (lbl : String)
    (h : scanIds st cand label ids = .sup eid lbl) :
    ∃ se, st.events.find? (fun e => e.id == eid) = some se ∧
      mergeEvents cand (storedMergeArg st se) = some .former := by
  induction ids with
  | nil => simp [scanIds] at h
  | cons i rest ih =>
      rw [scanIds] at h
      split at h
      · exact ih h
      · rename_i se hfind
        split at h
        · simp at h
        · rename_i hmerge
          cases h
          exact ⟨se, hfind, hmerge⟩
        · exact ih h
        · simp at h

theorem scanLabels_keep_spec (st : Store) (cand : MergeArg)
    (ls : List String) (eid : Nat)
    (h : scanLabels st cand ls = .keep eid) :
    ∃ se, st.events.find? (fun e => e.id == eid) = some se ∧
      mergeEvents cand (storedMergeArg st se) = some .latter := by
  induction ls with
  | nil => simp [scanLabels] at h
  | cons label rest ih =>
      rw [scanLabels] at h
      split at h
      · exact ih h
      · rename_i entry hentry
        cases hscan : scanIds st cand label entry.eventIds with
        | noMatch =>
            rw [hscan] at h
            exact ih h
        | keep e =>
            rw [hscan] at h
            have h' : ScanOut.keep e = ScanOut.keep eid := h
            cases h'
            exact scanIds_keep_spec st cand label entry.eventIds _ hscan
        | sup e l =>
            rw [hscan] at h
            have h' : ScanOut.sup e l = ScanOut.keep eid := h
            cases h'
        | crash =>
            rw [hscan] at h
            have h' : ScanOut.crash = ScanOut.keep eid := h
            cases h'

theorem scanLabels_sup_spec (st : Store) (cand : MergeArg)
    (ls : List String) (eid : Nat) (lbl : String)
    (h : scanLabels st cand ls = .sup eid lbl) :
    ∃ se, st.events.find? (fun e => e.id == eid) = some se ∧
      mergeEvents cand (storedMergeArg st se) = some .former := by
  induction ls with
  | nil => simp [scanLabels] at h
  | cons label rest ih =>
      rw [scanLabels] at h
      split at h
      · exact ih h
      · rename_i entry hentry
        cases hscan : scanIds st cand label entry.eventIds with
        | noMatch =>
            rw [hscan] at h
            exact ih h
        | keep e =>
            rw [hscan] at h
            have h' : ScanOut.keep e = ScanOut.sup eid lbl := h
            cases h'
        | sup e l =>
            rw [hscan] at h
            have h' : ScanOut.sup e l = ScanOut.sup eid lbl := h
            cases h'
            exact scanIds_sup_spec st cand label entry.eventIds _ _ hscan
        | crash =>
            rw [hscan] at h
            have h' : ScanOut.crash = ScanOut.sup eid lbl := h
            cases h'

/-- Claim C2 (amended): the merge tie-break keeps the event of the
later-received message.  If the decision for a candidate is `keepExisting`
then the stored event's owning message was received no earlier than the
candidate's (`recvAt ≤ f.receivedAt`) and the candidate is dropped; if the
decision is `supersede` then the stored event's owning message was received
strictly earlier, and the stored event is overwritten in place — same record
id — with the candidate's data. -/
theorem claim_C2 (env : Env) (rootId : String) (recvAt : Int) (text : String)
    (st : Store) (ev : CandidateEvent) :
    (∀ eid, (mergeCandidate env rootId recvAt text st ev).1 =
        MergeDecision.keepExisting eid →
      ∃ se f, st.events.find? (fun e => e.id == eid) = some se ∧
        lookupEmail st se.fromEmailId = some f ∧ recvAt ≤ f.receivedAt) ∧
    (∀ eid, (mergeCandidate env rootId recvAt text st ev).1 =
        MergeDecision.supersede eid →
      ∃ se f, st.events.find? (fun e => e.id == eid) = some se ∧
        lookupEmail st se.fromEmailId = some f ∧ f.receivedAt < recvAt ∧
        (mergeCandidate env rootId recvAt text st ev).2.1.events =
          st.events.map (fun e =>
            if e.id == eid then newEventData ev rootId text eid else e)) := by
  constructor
  · intro eid h
    simp only [mergeCandidate] at h
    split at h
    · rename_i eid' hscan
      cases h
      rcases scanLabels_keep_spec _ _ _ _ hscan with ⟨se, hfind, hmerge⟩
      rcases mergeEvents_latter _ _ hmerge with ⟨f1, f2, h1, h2, hle⟩
      cases h1
      rcases Option.map_eq_some'.mp h2 with ⟨e', he', rfl⟩
      exact ⟨se, e', hfind, he', hle⟩
    · simp at h
    · simp at h
    · simp at h
  · intro eid h
    simp only [mergeCandidate] at h
    split at h
    · simp at h
    · rename_i eid' lbl hscan
      cases h
      rcases scanLabels_sup_spec _ _ _ _ _ hscan with ⟨se, hfind, hmerge⟩
      rcases mergeEvents_former _ _ hmerge with ⟨f1, f2, h1, h2, hlt⟩
      cases h1
      rcases Option.map_eq_some'.mp h2 with ⟨e', he', rfl⟩
      refine ⟨se, e', hfind, he', hlt, ?_⟩
      simp only [mergeCandidate]
      rw [hscan]
    · simp at h
    · simp at h

/-- Counterexample to claim C2 as stated: the stored event `exStoredEvent`
belongs to a message received at time 0, earlier than the candidate's
receiving time 5, so the claim predicts keep-existing — but the code
supersedes, overwriting the stored record (id 1) with the candidate's
data. -/
theorem claim_C2_counterexample :
    lookupEmail exStore exStoredEvent.fromEmailId = some exRootEmail ∧
    exRootEmail.receivedAt ≤ 5 ∧
    (mergeCandidate exEnv "root" 5 "txt" exStore exCand).1 =
      MergeDecision.supersede 1 ∧
    (mergeCandidate exEnv "root" 5 "txt" exStore exCand).2.1.events =
      [newEventData exCand "root" "txt" 1] := by
  refine ⟨rfl, by decide, rfl, rfl⟩

/-- Witness for claim C2 at a concrete input: the supersede branch fires and
overwrites in place. -/
theorem claim_C2_witness :
    ∃ se f, exStore.events.find? (fun e => e.id == 1) = some se ∧
      lookupEmail exStore se.fromEmailId = some f ∧ f.receivedAt < 5 ∧
      (mergeCandidate exEnv "root" 5 "txt" exStore exCand).2.1.events =
        exStore.events.map (fun e =>
          if e.id == 1 then newEventData exCand "root" "txt" 1 else e) :=
  (claim_C2 exEnv "root" 5 "txt" exStore exCand).2 1 rfl

/-! ### Frame effects of the merge step (claim C3) -/

/-- Claim C3 (amended): a keep-existing decision writes nothing to the
persistent store — the whole resulting state equals the input state except
that the candidate's title has already been upserted into the embedding
index (with an empty id-set) before the k-nearest-neighbor query, so the
index is mutated even on keep-existing. -/
theorem claim_C3 (env : Env) (rootId : String) (recvAt : Int) (text : String)
    (st : Store) (ev : CandidateEvent) (eid : Nat)
    (h : (mergeCandidate env rootId recvAt text st ev).1 =
      MergeDecision.keepExisting eid) :
    (mergeCandidate env rootId recvAt text st ev).2.1 =
      { st with index := upsertEntry st.index ev.title (env.embed ev.title) [] } ∧
    (mergeCandidate env rootId recvAt text st ev).2.2 = [] := by
  simp only [mergeCandidate] at h ⊢
  split at h
  · rename_i eid' hscan
    exact ⟨rfl, rfl⟩
  · simp at h
  · simp at h
  · simp at h

/-- Witness for claim C3 at a concrete input where the decision is
keep-existing. -/
theorem claim_C3_witness :
    (mergeCandidate exEnv "root" 0 "txt" exStore exCand).2.1 =
      { exStore with
          index := upsertEntry exStore.index exCand.title
            (exEnv.embed exCand.title) [] } ∧
    (mergeCandidate exEnv "root" 0 "txt" exStore exCand).2.2 = [] :=
  claim_C3 exEnv "root" 0 "txt" exStore exCand 1 rfl

/-- Counterexample to claim C3 as stated: a keep-existing decision (the
candidate is received no later than the stored event's message) still leaves
the embedding index mutated — the candidate's title was upserted before the
neighbor scan. -/
theorem claim_C3_counterexample :
    (mergeCandidate exEnv "root" 0 "txt" exStore exCand).1 =
      MergeDecision.keepExisting 1 ∧
    (mergeCandidate exEnv "root" 0 "txt" exStore exCand).2.1.index ≠
      exStore.index := by
  exact ⟨rfl, by decide⟩

/-! ### Store lookups through email-list rewrites -/

theorem find?_mid_map (f : StoredEmail → StoredEmail)
    (hf : ∀ e, (f e).messageId = e.messageId) (mid : String)
    (l : List StoredEmail) :
    (l.map f).find? (fun e => e.messageId == mid) =
      (l.find? (fun e => e.messageId == mid)).map f := by
  induction l with
  | nil => rfl
  | cons a l' ih =>
      by_cases ha : (a.messageId == mid) = true
      · simp [List.find?_cons, hf, ha]
      · simp [List.find?_cons, hf, ha, ih]

theorem find?_append_self (l : List StoredEmail) (rec : StoredEmail)
    (h : l.find? (fun e => e.messageId == rec.messageId) = none) :
    (l ++ [rec]).find? (fun e => e.messageId == rec.messageId) = some rec := by
  induction l with
  | nil => simp [List.find?]
  | cons a l' ih =>
      by_cases ha : (a.messageId == rec.messageId) = true
      · simp [List.find?_cons, ha] at h
      · simp only [List.find?_cons, ha] at h
        simpa [List.cons_append, List.find?_cons, ha] using ih h

theorem lookupEmail_upsert_self (st : Store) (rec : StoredEmail) :
    ∃ e, lookupEmail (storeUpsertEmail st rec) rec.messageId = some e ∧
      e.modelName = rec.modelName := by
  unfold storeUpsertEmail
  cases hl : lookupEmail st rec.messageId with
  | some e0 =>
      simp only [hl]
      have hf : ∀ e : StoredEmail,
          ((fun e => if e.messageId == rec.messageId then
            { e with modelName := rec.modelName } else e) e).messageId =
          e.messageId := by
        intro e
        by_cases hc : (e.messageId == rec.messageId) = true <;> simp [hc]
      have h2 : lookupEmail
          { st with emails := st.emails.map (fun e =>
              if e.messageId == rec.messageId then
                { e with modelName := rec.modelName } else e) }
          rec.messageId =
          (st.emails.find? (fun e => e.messageId == rec.messageId)).map
            (fun e => if e.messageId == rec.messageId then
              { e with modelName := rec.modelName } else e) :=
        find?_mid_map _ hf rec.messageId st.emails
      rw [h2]
      have hl' : st.emails.find? (fun e => e.messageId == rec.messageId) =
          some e0 := hl
      rw [hl']
      refine ⟨_, rfl, ?_⟩
      have hp := List.find?_some hl'
      simp [hp]
  | none =>
      simp only [hl]
      have hl' : st.emails.find? (fun e => e.messageId == rec.messageId) =
          none := hl
      exact ⟨rec, find?_append_self _ _ hl', rfl⟩

theorem lookupEmail_mark (env : Env) (st : Store) (mid : String)
    (e : StoredEmail) (h : lookupEmail st mid = some e) :
    ∃ e', lookupEmail (markProcessedStore env st mid) mid = some e' ∧
      e'.modelName = env.model := by
  have hf : ∀ x : StoredEmail,
      ((fun x => if x.messageId == mid then
        { x with modelName := env.model } else x) x).messageId =
      x.messageId := by
    intro x
    by_cases hc : (x.messageId == mid) = true <;> simp [hc]
  have h2 : lookupEmail (markProcessedStore env st mid) mid =
      (st.emails.find? (fun e => e.messageId == mid)).map
        (fun x => if x.messageId == mid then
          { x with modelName := env.model } else x) :=
    find?_mid_map _ hf mid st.emails
  rw [h2]
  have h' : st.emails.find? (fun e => e.messageId == mid) = some e := h
  rw [h']
  refine ⟨_, rfl, ?_⟩
  have hp := List.find?_some h'
  simp [hp]

theorem storeUpsertEmail_events (st : Store) (rec : StoredEmail) :
    (storeUpsertEmail st rec).events = st.events := by
  unfold storeUpsertEmail; split <;> rfl

theorem storeUpsertEmail_ignored (st : Store) (rec : StoredEmail) :
    (storeUpsertEmail st rec).ignored = st.ignored := by
  unfold storeUpsertEmail; split <;> rfl

theorem appendProcessing_ne (s : String) : s ++ "_PROCESSING" ≠ s := by
  intro h
  have hlen := congrArg String.length h
  rw [String.length_append] at hlen
  have h11 : ("_PROCESSING" : String).length = 11 := rfl
  rw [h11] at hlen
  omega

/-! ### The un-awaited success-path write (claim C10) -/

theorem mergeCandidate_emails (env : Env) (rootId : String) (recvAt : Int)
    (text : String) (st : Store) (ev : CandidateEvent) :
    (mergeCandidate env rootId recvAt text st ev).2.1.emails = st.emails := by
  simp only [mergeCandidate]
  split <;> rfl

theorem processCandidates_emails (env : Env) (rootId : String) (recvAt : Int)
    (text : String) (evs : List CandidateEvent) (st : Store) :
    (processCandidates env rootId recvAt text evs st).2.1.emails =
      st.emails := by
  induction evs generalizing st with
  | nil => rfl
  | cons ev rest ih =>
      rcases hmc : mergeCandidate env rootId recvAt text st ev with ⟨d, st', tr⟩
      have he : st'.emails = st.emails := by
        have := mergeCandidate_emails env rootId recvAt text st ev
        rw [hmc] at this
        exact this
      rw [processCandidates, hmc]
      cases d
      · simpa using (ih st').trans he
      · simpa using (ih st').trans he
      · simpa using (ih st').trans he
      · simpa using he

theorem extractStage_success (env : Env) (mid subj text : String)
    (recvAt : Int) (rootId : String) (st : Store) (tr : List Action)
    (h : (extractStage env mid subj text recvAt rootId st tr).1 =
      .ok .DORMSPAM_WITH_EVENT) :
    (extractStage env mid subj text recvAt rootId st tr).2.2.2 = [mid] ∧
    (extractStage env mid subj text recvAt rootId st tr).2.1.emails =
      st.emails := by
  simp only [extractStage] at h ⊢
  split at h
  · simp at h
  · simp at h
  · simp at h
  · simp at h
  · rename_i evs horacle
    split at h
    · simp at h
    · rename_i st' tr' hpc
      refine ⟨rfl, ?_⟩
      have hre := processCandidates_emails env rootId recvAt text evs st
      rw [hpc] at hre
      exact hre

theorem mainStage_success (env : Env) (scrapedBy : String) (uid : Nat)
    (mid senderAddress senderName subj html text : String) (receivedAt : Int)
    (replyTo : Option String) (rootId : String) (trPre : List Action)
    (st : Store)
    (h : (mainStage env scrapedBy uid mid senderAddress senderName subj html
        text receivedAt replyTo rootId trPre st).1 = .ok .DORMSPAM_WITH_EVENT) :
    (mainStage env scrapedBy uid mid senderAddress senderName subj html text
        receivedAt replyTo rootId trPre st).2.2.2 = [mid] ∧
    (mainStage env scrapedBy uid mid senderAddress senderName subj html text
        receivedAt replyTo rootId trPre st).2.1.emails =
      (storeUpsertEmail st
        ⟨mid, scrapedBy, uid, senderAddress, senderName, subj, html,
          receivedAt, env.model ++ "_PROCESSING", replyTo⟩).emails := by
  simp only [mainStage] at h ⊢
  split at h
  · rename_i e0 hfind
    split at h
    · simp at h
    · rename_i hmodel
      rw [if_neg hmodel]
      exact extractStage_success _ _ _ _ _ _ _ _ h
  · rename_i hfind
    exact extractStage_success _ _ _ _ _ _ _ _ h

/-- Claim C10: when the pipeline returns the success outcome
`DORMSPAM_WITH_EVENT`, the final `markProcessedByCurrentModel()` has not been
awaited: it sits in the pending list, the stored message still carries the
transient `…_PROCESSING` model tag (which never equals the current model
name), and only actually running the pending write would set the current
model name.  A failure of that write is therefore invisible in the
outcome. -/
theorem claim_C10 (env : Env) (scrapedBy : String) (uid : Nat)
    (parsed : ParsedMailIn) (tasks : List String) (st : Store) (mid : String)
    (hmid : parsed.messageId = some mid)
    (h : (processMail env scrapedBy uid parsed tasks st).result =
      .ok .DORMSPAM_WITH_EVENT) :
    (processMail env scrapedBy uid parsed tasks st).pending = [mid] ∧
    (∃ e, lookupEmail (processMail env scrapedBy uid parsed tasks st).store mid
        = some e ∧ e.modelName = env.model ++ "_PROCESSING") ∧
    env.model ++ "_PROCESSING" ≠ env.model ∧
    (∃ e', lookupEmail (markProcessedStore env
        (processMail env scrapedBy uid parsed tasks st).store mid) mid =
      some e' ∧ e'.modelName = env.model) := by
  rcases hb : processMailBody env scrapedBy uid parsed tasks st
    with ⟨r, st', tr, pend⟩
  have hbody1 : (processMailBody env scrapedBy uid parsed tasks st).1 = r := by
    rw [hb]
  have hmain : r = .ok .DORMSPAM_WITH_EVENT →
      pend = [mid] ∧
      ∃ e, lookupEmail st' mid = some e ∧
        e.modelName = env.model ++ "_PROCESSING" := by
    intro hr
    subst hr
    simp only [processMailBody] at hb
    split at hb
    · cases hb
    · cases hb
    · split at hb
      · rename_i mid' addr nm srest html subj hmid' hsender hhtml hsubj
        have hmid2 : mid = mid' := by
          rw [hmid'] at hmid
          exact (Option.some.inj hmid).symm
        subst hmid2
        split at hb
        · cases hb
        · split at hb
          · cases hb
          · split at hb
            · rename_i hrep
              rcases hms : mainStage env scrapedBy uid mid (addr.getD "")
                  (nm.getD (addr.getD "")) subj html
                  (env.removeArtifacts (parsed.text.getD (env.convert html)))
                  (parsed.date.getD env.now) none mid (regOf parsed) st
                with ⟨r2, st2, tr2, pend2⟩
              rw [hms] at hb
              cases hb
              have := mainStage_success env scrapedBy uid mid (addr.getD "")
                (nm.getD (addr.getD "")) subj html
                (env.removeArtifacts (parsed.text.getD (env.convert html)))
                (parsed.date.getD env.now) none mid (regOf parsed) st
                (by rw [hms])
              rw [hms] at this
              rcases this with ⟨hp, he⟩
              refine ⟨hp, ?_⟩
              rcases lookupEmail_upsert_self st
                ⟨mid, scrapedBy, uid, addr.getD "",
                  nm.getD (addr.getD ""), subj, html,
                  parsed.date.getD env.now, env.model ++ "_PROCESSING",
                  none⟩ with ⟨e, hle, hm⟩
              refine ⟨e, ?_, hm⟩
              unfold lookupEmail at hle ⊢
              rw [he]
              exact hle
            · split at hb
              · cases hb
              · rename_i pe hpe
                split at hb
                · cases hb
                · cases hb
                · rename_i root hwalk
                  rcases hms : mainStage env scrapedBy uid mid (addr.getD "")
                      (nm.getD (addr.getD "")) subj html
                      (env.removeArtifacts (parsed.text.getD (env.convert html)))
                      (parsed.date.getD env.now) (some _) root.messageId
                      (regOf parsed ++
                        (if pe.messageId ∈ tasks then [.awaitTask pe.messageId]
                         else [])) st
                    with ⟨r2, st2, tr2, pend2⟩
                  rw [hms] at hb
                  cases hb
                  have := mainStage_success env scrapedBy uid mid (addr.getD "")
                    (nm.getD (addr.getD "")) subj html
                    (env.removeArtifacts (parsed.text.getD (env.convert html)))
                    (parsed.date.getD env.now) (some _) root.messageId
                    (regOf parsed ++
                      (if pe.messageId ∈ tasks then [.awaitTask pe.messageId]
                       else [])) st
                    (by rw [hms])
                  rw [hms] at this
                  rcases this with ⟨hp, he⟩
                  refine ⟨hp, ?_⟩
                  rcases lookupEmail_upsert_self st
                    ⟨mid, scrapedBy, uid, addr.getD "",
                      nm.getD (addr.getD ""), subj, html,
                      parsed.date.getD env.now, env.model ++ "_PROCESSING",
                      some _⟩ with ⟨e, hle, hm⟩
                  refine ⟨e, ?_, hm⟩
                  unfold lookupEmail at hle ⊢
                  rw [he]
                  exact hle
      · cases hb
  cases r with
  | diverge =>
      have hpm : processMail env scrapedBy uid parsed tasks st =
          ⟨.diverge, st', tr, pend⟩ := by
        unfold processMail
        rw [hb]
      rw [hpm] at h
      cases h
  | thrown =>
      have hpm : processMail env scrapedBy uid parsed tasks st =
          ⟨.thrown, st', tr ++ [.resolveTask], pend⟩ := by
        unfold processMail
        rw [hb]
      rw [hpm] at h
      cases h
  | ok r' =>
      have hpm : processMail env scrapedBy uid parsed tasks st =
          ⟨.ok r', st', tr ++ [.resolveTask], pend⟩ := by
        unfold processMail
        rw [hb]
      rw [hpm] at h
      have hr' : r' = .DORMSPAM_WITH_EVENT := by
        simpa using h
      subst hr'
      rcases hmain rfl with ⟨hp, e, hle, hm⟩
      rw [hpm]
      refine ⟨hp, ⟨e, hle, hm⟩, appendProcessing_ne env.model, ?_⟩
      rcases lookupEmail_mark env st' mid e hle with ⟨e', hle', hm'⟩
      exact ⟨e', hle', hm'⟩

/-- Witness for claim C10: a concrete successful run on which the mark-write
is still pending and the stored message still carries the transient tag. -/
theorem claim_C10_witness :
    (processMail exEnv "scraper" 9 exParsed [] exStore).pending = ["m1"] ∧
    (∃ e, lookupEmail (processMail exEnv "scraper" 9 exParsed [] exStore).store
        "m1" = some e ∧ e.modelName = exEnv.model ++ "_PROCESSING") ∧
    exEnv.model ++ "_PROCESSING" ≠ exEnv.model ∧
    (∃ e', lookupEmail (markProcessedStore exEnv
        (processMail exEnv "scraper" 9 exParsed [] exStore).store "m1") "m1" =
      some e' ∧ e'.modelName = exEnv.model) :=
  claim_C10 exEnv "scraper" 9 exParsed [] exStore "m1" rfl rfl

/-! ### The guaranteed-run finalizer (claim C6) -/

theorem mergeCandidate_no_resolve (env : Env) (rootId : String) (recvAt : Int)
    (text : String) (st : Store) (ev : CandidateEvent) :
    Action.resolveTask ∉ (mergeCandidate env rootId recvAt text st ev).2.2 := by
  simp only [mergeCandidate]
  split <;> simp

theorem processCandidates_no_resolve (env : Env) (rootId : String)
    (recvAt : Int) (text : String) (evs : List CandidateEvent) (st : Store) :
    Action.resolveTask ∉
      (processCandidates env rootId recvAt text evs st).2.2 := by
  induction evs generalizing st with
  | nil => simp [processCandidates]
  | cons ev rest ih =>
      rcases hmc : mergeCandidate env rootId recvAt text st ev with ⟨d, st', tr⟩
      have htr : Action.resolveTask ∉ tr := by
        have hnr := mergeCandidate_no_resolve env rootId recvAt text st ev
        rw [hmc] at hnr
        exact hnr
      rw [processCandidates, hmc]
      cases d with
      | crashed => simpa using htr
      | keepExisting eid =>
          intro hmem
          rcases List.mem_append.mp (by simpa using hmem) with hx | hx
          · exact htr hx
          · exact ih st' hx
      | supersede eid =>
          intro hmem
          rcases List.mem_append.mp (by simpa using hmem) with hx | hx
          · exact htr hx
          · exact ih st' hx
      | insert eid =>
          intro hmem
          rcases List.mem_append.mp (by simpa using hmem) with hx | hx
          · exact htr hx
          · exact ih st' hx

theorem extractStage_no_resolve (env : Env) (mid subj text : String)
    (recvAt : Int) (rootId : String) (st : Store) (tr : List Action)
    (h : Action.resolveTask ∉ tr) :
    Action.resolveTask ∉
      (extractStage env mid subj text recvAt rootId st tr).2.2.1 := by
  simp only [extractStage]
  split
  · simp [h]
  · simp [h]
  · simp [h]
  · simp [h]
  · rename_i evs horacle
    split
    · rename_i st' tr' hpc
      have htr' : Action.resolveTask ∉ tr' := by
        have hnr := processCandidates_no_resolve env rootId recvAt text evs st
        rw [hpc] at hnr
        exact hnr
      simp [h, htr']
    · rename_i st' tr' hpc
      have htr' : Action.resolveTask ∉ tr' := by
        have hnr := processCandidates_no_resolve env rootId recvAt text evs st
        rw [hpc] at hnr
        exact hnr
      simp [h, htr']

theorem mainStage_no_resolve (env : Env) (scrapedBy : String) (uid : Nat)
    (mid senderAddress senderName subj html text : String) (receivedAt : Int)
    (replyTo : Option String) (rootId : String) (trPre : List Action)
    (st : Store) (h : Action.resolveTask ∉ trPre) :
    Action.resolveTask ∉
      (mainStage env scrapedBy uid mid senderAddress senderName subj html text
        receivedAt replyTo rootId trPre st).2.2.1 := by
  simp only [mainStage]
  split
  · split
    · simp [h]
    · exact extractStage_no_resolve _ _ _ _ _ _ _ _ (by simp [h])
  · exact extractStage_no_resolve _ _ _ _ _ _ _ _ (by simp [h])

theorem regOf_no_resolve (parsed : ParsedMailIn) :
    Action.resolveTask ∉ regOf parsed := by
  unfold regOf
  split <;> simp

theorem processMailBody_no_resolve (env : Env) (scrapedBy : String)
    (uid : Nat) (parsed : ParsedMailIn) (tasks : List String) (st : Store) :
    Action.resolveTask ∉
      (processMailBody env scrapedBy uid parsed tasks st).2.2.1 := by
  have hreg := regOf_no_resolve parsed
  simp only [processMailBody]
  split
  · simpa using hreg
  · simp [hreg]
  · split
    · split
      · simp [hreg]
      · split
        · simp [hreg]
        · split
          · exact mainStage_no_resolve _ _ _ _ _ _ _ _ _ _ _ _ _ _
              (by simpa using hreg)
          · split
            · simpa using hreg
            · split
              · simpa using hreg
              · simpa using hreg
              · refine mainStage_no_resolve _ _ _ _ _ _ _ _ _ _ _ _ _ _ ?_
                split <;> simp [hreg]
    · simpa using hreg

/-- Claim C6: a `processMail` invocation that registered a coordinator handle
resolves it exactly once whenever the invocation exits by any path — success,
rejection or thrown error: the trace contains exactly one `resolveTask`, and
it is the final action. -/
theorem claim_C6 (env : Env) (scrapedBy : String) (uid : Nat)
    (parsed : ParsedMailIn) (tasks : List String) (st : Store) (mid : String)
    (hmid : parsed.messageId = some mid)
    (hexit : (processMail env scrapedBy uid parsed tasks st).result ≠
      .diverge) :
    (processMail env scrapedBy uid parsed tasks st).trace.count
      .resolveTask = 1 ∧
    (processMail env scrapedBy uid parsed tasks st).trace.getLast? =
      some .resolveTask := by
  rcases hb : processMailBody env scrapedBy uid parsed tasks st
    with ⟨r, st', tr, pend⟩
  have hnr : Action.resolveTask ∉ tr := by
    have hx := processMailBody_no_resolve env scrapedBy uid parsed tasks st
    rw [hb] at hx
    exact hx
  cases r with
  | diverge =>
      have hpm : processMail env scrapedBy uid parsed tasks st =
          ⟨.diverge, st', tr, pend⟩ := by
        unfold processMail
        rw [hb]
      rw [hpm] at hexit
      simp at hexit
  | thrown =>
      have hpm : processMail env scrapedBy uid parsed tasks st =
          ⟨.thrown, st', tr ++ [.resolveTask], pend⟩ := by
        unfold processMail
        rw [hb]
      rw [hpm]
      refine ⟨?_, ?_⟩
      · simp [List.count_append, List.count_eq_zero.mpr hnr]
      · exact List.getLast?_concat tr
  | ok r' =>
      have hpm : processMail env scrapedBy uid parsed tasks st =
          ⟨.ok r', st', tr ++ [.resolveTask], pend⟩ := by
        unfold processMail
        rw [hb]
      rw [hpm]
      refine ⟨?_, ?_⟩
      · simp [List.count_append, List.count_eq_zero.mpr hnr]
      · exact List.getLast?_concat tr

/-- Witness for claim C6: a concrete run resolving its handle exactly once,
as its final action. -/
theorem claim_C6_witness :
    (processMail exEnv "scraper" 9 exParsed [] exStore).trace.count
      .resolveTask = 1 ∧
    (processMail exEnv "scraper" 9 exParsed [] exStore).trace.getLast? =
      some .resolveTask :=
  claim_C6 exEnv "scraper" 9 exParsed [] exStore "m1" rfl (by decide)

/-! ### Deferred retry on a missing thread root (claim C7) -/

theorem processMail_deferred (env : Env) (scrapedBy : String) (uid : Nat)
    (p : ParsedMailIn) (tasks : List String) (st : Store)
    (h : deferredRetryInput env st uid p) :
    (processMail env scrapedBy uid p tasks st).result =
      .ok .DORMSPAM_BUT_ROOT_NOT_IN_DB ∧
    (processMail env scrapedBy uid p tasks st).store = st := by
  rcases h with ⟨mid, addr, nm, srest, html, subj, pid, hmid, hsender, hhtml,
    hne, hsubj, hconf, hdorm, hreply, hmiss⟩
  have hmal : malformedTest p = some false := by
    unfold malformedTest htmlFalsy
    rw [hmid, hsender, hhtml, hsubj]
    simp [hne]
  have hbody : processMailBody env scrapedBy uid p tasks st =
      (.ok .DORMSPAM_BUT_ROOT_NOT_IN_DB, st, regOf p, []) := by
    rcases hmiss with hnone | ⟨pe, hpe, hwalk⟩
    · simp [processMailBody, hmal, hmid, hsender, hhtml, hsubj, hconf,
        hdorm, hreply, hnone]
    · simp [processMailBody, hmal, hmid, hsender, hhtml, hsubj, hconf,
        hdorm, hreply, hpe, hwalk]
  have hpm : processMail env scrapedBy uid p tasks st =
      ⟨.ok .DORMSPAM_BUT_ROOT_NOT_IN_DB, st, regOf p ++ [.resolveTask], []⟩ := by
    unfold processMail
    rw [hbody]
  rw [hpm]
  exact ⟨rfl, rfl⟩

/-- Claim C7: a well-formed, non-conflicting dormspam reply whose backward
reply chain has an ancestor missing from the store yields
`DORMSPAM_BUT_ROOT_NOT_IN_DB`, writes no tombstone, and leaves the whole
store — in particular the message's processing status — untouched, so the
message is naturally retried in a later run; consequently a whole chain of
such replies, run in sequence within one run, yields that outcome for every
one of them and leaves the store unchanged. -/
theorem claim_C7 (env : Env) (scrapedBy : String) (st : Store) :
    (∀ uid p tasks, deferredRetryInput env st uid p →
      (processMail env scrapedBy uid p tasks st).result =
        .ok .DORMSPAM_BUT_ROOT_NOT_IN_DB ∧
      (processMail env scrapedBy uid p tasks st).store = st) ∧
    (∀ tasks msgs, (∀ m ∈ msgs, deferredRetryInput env st m.1 m.2) →
      (runSeq env scrapedBy tasks msgs st).1 =
        msgs.map (fun _ => ROutcome.ok .DORMSPAM_BUT_ROOT_NOT_IN_DB) ∧
      (runSeq env scrapedBy tasks msgs st).2 = st) := by
  refine ⟨fun uid p tasks h => processMail_deferred env scrapedBy uid p tasks st h, ?_⟩
  intro tasks msgs hall
  induction msgs with
  | nil => exact ⟨rfl, rfl⟩
  | cons m rest ih =>
      rcases m with ⟨u, pp⟩
      rcases processMail_deferred env scrapedBy u pp tasks st
        (hall (u, pp) (by simp)) with ⟨hres, hst⟩
      rcases ih (fun m' hm' => hall m' (by simp [hm'])) with ⟨h1, h2⟩
      rw [runSeq]
      constructor
      · simp only [hst, hres, h1, List.map_cons]
      · simp only [hst, h2]

/-- Witness for claim C7: a reply with a missing parent is deferred, and a
two-deep chain of replies is deferred throughout, with the store unchanged. -/
theorem claim_C7_witness :
    ((processMail exEnv "scraper" 5 exParsedC [] exStore).result =
        .ok .DORMSPAM_BUT_ROOT_NOT_IN_DB ∧
      (processMail exEnv "scraper" 5 exParsedC [] exStore).store = exStore) ∧
    ((runSeq exEnv "scraper" [] [(5, exParsedC), (6, exParsedD)] exStore).1 =
        [.ok .DORMSPAM_BUT_ROOT_NOT_IN_DB, .ok .DORMSPAM_BUT_ROOT_NOT_IN_DB] ∧
      (runSeq exEnv "scraper" [] [(5, exParsedC), (6, exParsedD)] exStore).2 =
        exStore) := by
  have hC : deferredRetryInput exEnv exStore 5 exParsedC :=
    ⟨"mC", "c@mit.edu", none, [], "b", "s", "ghost", rfl, rfl, rfl,
      by decide, rfl, rfl, by decide, rfl, Or.inl rfl⟩
  have hD : deferredRetryInput exEnv exStore 6 exParsedD :=
    ⟨"mD", "d@mit.edu", none, [], "b", "s", "mC", rfl, rfl, rfl,
      by decide, rfl, rfl, by decide, rfl, Or.inl rfl⟩
  refine ⟨(claim_C7 exEnv "scraper" exStore).1 5 exParsedC [] hC, ?_⟩
  have h2 := (claim_C7 exEnv "scraper" exStore).2 []
    [(5, exParsedC), (6, exParsedD)]
    (by
      intro m hm
      rcases List.mem_cons.mp hm with rfl | hm'
      · exact hC
      · rcases List.mem_cons.mp hm' with rfl | hm''
        · exact hD
        · cases hm'')
  simpa using h2

/-! ### Malformed messages, tombstones, and the uid filter (claim C8) -/

theorem foldl_min_le (xs : List Nat) :
    ∀ a, xs.foldl Nat.min a ≤ a ∧ ∀ u ∈ xs, xs.foldl Nat.min a ≤ u := by
  induction xs with
  | nil => intro a; exact ⟨Nat.le_refl a, by simp⟩
  | cons b bs ih =>
      intro a
      have h := ih (Nat.min a b)
      refine ⟨?_, ?_⟩
      · exact Nat.le_trans h.1 (Nat.min_le_left a b)
      · intro u hu
        rcases List.mem_cons.mp hu with rfl | hu'
        · exact Nat.le_trans h.1 (Nat.min_le_right a u)
        · exact h.2 u hu'

theorem minUidOf_le (l : List Nat) (u : Nat) (hu : u ∈ l) :
    minUidOf l ≤ u := by
  cases l with
  | nil => cases hu
  | cons x xs =>
      rcases List.mem_cons.mp hu with rfl | hu'
      · exact (foldl_min_le xs u).1
      · exact (foldl_min_le xs x).2 u hu'

theorem ignoreUpsert_idem (ig : List IgnoredRec) (sb : String) (u : Nat)
    (r r' : Int) :
    ignoreUpsert (ignoreUpsert ig sb u r) sb u r' = ignoreUpsert ig sb u r := by
  unfold ignoreUpsert
  by_cases hc : (ig.any fun rec => rec.scrapedBy == sb && rec.uid == u) = true
  · simp [hc]
  · simp only [hc, if_false, Bool.false_eq_true]
    have hc2 : ((ig ++ [(⟨sb, u, r⟩ : IgnoredRec)]).any
        fun rec => rec.scrapedBy == sb && rec.uid == u) = true := by
      rw [List.any_append, Bool.or_eq_true]
      right
      simp [List.any_cons]
    simp [hc2]

theorem processMail_malformed (env : Env) (scrapedBy : String) (uid : Nat)
    (p : ParsedMailIn) (tasks : List String) (st : Store)
    (h : malformedTest p = some true) :
    (processMail env scrapedBy uid p tasks st).result =
      .ok .MALFORMED_EMAIL ∧
    (processMail env scrapedBy uid p tasks st).store =
      { st with ignored :=
          ignoreUpsert st.ignored scrapedBy uid (p.date.getD env.now) } := by
  have hbody : processMailBody env scrapedBy uid p tasks st =
      (.ok .MALFORMED_EMAIL,
        { st with ignored :=
            ignoreUpsert st.ignored scrapedBy uid (p.date.getD env.now) },
        regOf p ++ [.tombstone], []) := by
    simp [processMailBody, h]
  have hpm : processMail env scrapedBy uid p tasks st =
      ⟨.ok .MALFORMED_EMAIL,
        { st with ignored :=
            ignoreUpsert st.ignored scrapedBy uid (p.date.getD env.now) },
        (regOf p ++ [.tombstone]) ++ [.resolveTask], []⟩ := by
    unfold processMail
    rw [hbody]
  rw [hpm]
  exact ⟨rfl, rfl⟩

theorem processMail_conflict (env : Env) (scrapedBy : String) (uid : Nat)
    (p : ParsedMailIn) (tasks : List String) (st : Store)
    (mid : String) (addr nm : Option String)
    (srest : List (Option String × Option String)) (html subj : String)
    (hmid : p.messageId = some mid)
    (hsender : p.sender = some ((addr, nm) :: srest))
    (hhtml : p.html = some html) (hsubj : p.subject = some subj)
    (hmal : malformedTest p = some false)
    (hconf : conflictCheck st mid uid = true) :
    (processMail env scrapedBy uid p tasks st).result =
      .ok .MALFORMED_EMAIL ∧
    (processMail env scrapedBy uid p tasks st).store =
      { st with ignored :=
          ignoreUpsert st.ignored scrapedBy uid (p.date.getD env.now) } := by
  have hbody : processMailBody env scrapedBy uid p tasks st =
      (.ok .MALFORMED_EMAIL,
        { st with ignored :=
            ignoreUpsert st.ignored scrapedBy uid (p.date.getD env.now) },
        regOf p ++ [.tombstone], []) := by
    simp [processMailBody, hmal, hmid, hsender, hhtml, hsubj, hconf]
  have hpm : processMail env scrapedBy uid p tasks st =
      ⟨.ok .MALFORMED_EMAIL,
        { st with ignored :=
            ignoreUpsert st.ignored scrapedBy uid (p.date.getD env.now) },
        (regOf p ++ [.tombstone]) ++ [.resolveTask], []⟩ := by
    unfold processMail
    rw [hbody]
  rw [hpm]
  exact ⟨rfl, rfl⟩

/-- Claim C8: a message missing its identity, sender address, body or
subject — and a message whose identity matches a stored record under a
different transport uid — yields `MALFORMED_EMAIL` together with a tombstone
upsert into the ignored ledger; the tombstone upsert is idempotent; and a
tombstoned uid appearing among a run's candidate uids is excluded before
fetching and processing. -/
theorem claim_C8 (env : Env) (scrapedBy : String) (st : Store) :
    (∀ uid p tasks, malformedTest p = some true →
      (processMail env scrapedBy uid p tasks st).result =
        .ok .MALFORMED_EMAIL ∧
      (processMail env scrapedBy uid p tasks st).store =
        { st with ignored :=
            ignoreUpsert st.ignored scrapedBy uid (p.date.getD env.now) }) ∧
    (∀ uid p tasks mid addr nm srest html subj,
      p.messageId = some mid →
      p.sender = some ((addr, nm) :: srest) →
      p.html = some html → p.subject = some subj →
      malformedTest p = some false →
      conflictCheck st mid uid = true →
      (processMail env scrapedBy uid p tasks st).result =
        .ok .MALFORMED_EMAIL ∧
      (processMail env scrapedBy uid p tasks st).store =
        { st with ignored :=
            ignoreUpsert st.ignored scrapedBy uid (p.date.getD env.now) }) ∧
    (∀ ig sb u r r',
      ignoreUpsert (ignoreUpsert ig sb u r) sb u r' = ignoreUpsert ig sb u r) ∧
    (∀ user allUids u, u ∈ allUids →
      (∃ rec ∈ st.ignored, rec.scrapedBy = user ∧ rec.uid = u) →
      u ∉ candidateUids env user allUids st) := by
  refine ⟨fun uid p tasks h => processMail_malformed env scrapedBy uid p tasks st h,
    fun uid p tasks mid addr nm srest html subj h1 h2 h3 h4 h5 h6 =>
      processMail_conflict env scrapedBy uid p tasks st mid addr nm srest
        html subj h1 h2 h3 h4 h5 h6,
    fun ig sb u r r' => ignoreUpsert_idem ig sb u r r', ?_⟩
  intro user allUids u hu hrec hin
  rcases hrec with ⟨rec, hmem, hsb, huid⟩
  simp only [candidateUids] at hin
  rw [List.mem_filter] at hin
  rcases hin with ⟨-, hpred⟩
  have hcontains : ((st.ignored.filter (fun r =>
      r.scrapedBy == user && minUidOf allUids ≤ r.uid)).map (fun r => r.uid) ++
      (st.emails.filter (fun e => e.scrapedBy == user &&
        minUidOf allUids ≤ e.uid && e.modelName == env.model)).map
        (fun e => e.uid)).contains u = true := by
    have humem : u ∈ (st.ignored.filter (fun r =>
        r.scrapedBy == user && minUidOf allUids ≤ r.uid)).map
        (fun r => r.uid) := by
      refine List.mem_map.mpr ⟨rec, ?_, huid⟩
      refine List.mem_filter.mpr ⟨hmem, ?_⟩
      rw [hsb, huid]
      simp [minUidOf_le allUids u hu]
    have : u ∈ (st.ignored.filter (fun r =>
        r.scrapedBy == user && minUidOf allUids ≤ r.uid)).map (fun r => r.uid) ++
        (st.emails.filter (fun e => e.scrapedBy == user &&
          minUidOf allUids ≤ e.uid && e.modelName == env.model)).map
          (fun e => e.uid) := List.mem_append.mpr (Or.inl humem)
    exact List.elem_iff.mpr this
  rw [hcontains] at hpred
  cases hpred

/-- Witness for claim C8 at concrete inputs: a fully missing message, a
duplicate identity under a different uid, tombstone idempotence, and
exclusion of a tombstoned uid from the candidate list. -/
theorem claim_C8_witness :
    ((processMail exEnv "scraper" 7 exParsedBad [] exStoreC8).result =
        .ok .MALFORMED_EMAIL ∧
      (processMail exEnv "scraper" 7 exParsedBad [] exStoreC8).store =
        { exStoreC8 with ignored :=
            (ignoreUpsert exStoreC8.ignored "scraper" 7
              (exParsedBad.date.getD exEnv.now)) }) ∧
    ((processMail exEnv "scraper" 99 exParsedDup [] exStoreC8).result =
        .ok .MALFORMED_EMAIL ∧
      (processMail exEnv "scraper" 99 exParsedDup [] exStoreC8).store =
        { exStoreC8 with ignored :=
            (ignoreUpsert exStoreC8.ignored "scraper" 99
              (exParsedDup.date.getD exEnv.now)) }) ∧
    (ignoreUpsert (ignoreUpsert [] "s" 1 0) "s" 1 2 = ignoreUpsert [] "s" 1 0) ∧
    (1 : Nat) ∉ candidateUids exEnv "scraper" [1, 2] exStoreC8 := by
  refine ⟨(claim_C8 exEnv "scraper" exStoreC8).1 7 exParsedBad [] rfl,
    (claim_C8 exEnv "scraper" exStoreC8).2.1 99 exParsedDup [] "root"
      (some "x@mit.edu") none [] "b" "s" rfl rfl rfl rfl rfl rfl,
    (claim_C8 exEnv "scraper" exStoreC8).2.2.1 [] "s" 1 0 2,
    (claim_C8 exEnv "scraper" exStoreC8).2.2.2 "scraper" [1, 2] 1
      (by decide) ⟨⟨"scraper", 1, 5⟩, by decide, rfl, rfl⟩⟩

/-! ### Extractor-version bump and event invalidation (claim C4) -/

theorem storeUpsertEmail_nextEventId (st : Store) (rec : StoredEmail) :
    (storeUpsertEmail st rec).nextEventId = st.nextEventId := by
  unfold storeUpsertEmail
  split <;> rfl

theorem pairwise_id_unique {l : List StoredEvent}
    (h : l.Pairwise (fun a b => a.id ≠ b.id)) {a b : StoredEvent}
    (ha : a ∈ l) (hb : b ∈ l) (heq : a.id = b.id) : a = b := by
  induction l with
  | nil => cases ha
  | cons x xs ih =>
      rcases List.pairwise_cons.mp h with ⟨hx, hxs⟩
      rcases List.mem_cons.mp ha with rfl | ha'
      · rcases List.mem_cons.mp hb with rfl | hb'
        · rfl
        · exact absurd heq (hx b hb')
      · rcases List.mem_cons.mp hb with rfl | hb'
        · exact absurd heq.symm (hx a ha')
        · exact ih hxs ha' hb'

theorem mergeCandidate_ids (env : Env) (rootId : String) (recvAt : Int)
    (text : String) (st : Store) (ev : CandidateEvent) :
    (∀ e' ∈ (mergeCandidate env rootId recvAt text st ev).2.1.events,
      e'.id ∈ st.events.map (fun e => e.id) ∨ st.nextEventId ≤ e'.id) ∧
    st.nextEventId ≤ (mergeCandidate env rootId recvAt text st ev).2.1.nextEventId := by
  simp only [mergeCandidate]
  split
  · exact ⟨fun e' he' => Or.inl (List.mem_map.mpr ⟨e', he', rfl⟩),
      Nat.le_refl _⟩
  · rename_i eid lbl hscan
    refine ⟨?_, Nat.le_refl _⟩
    have hgid : ∀ e2 : StoredEvent,
        (if (e2.id == eid) = true then newEventData ev rootId text eid
          else e2).id = e2.id := by
      intro e2
      by_cases hc : (e2.id == eid) = true
      · rw [if_pos hc]
        exact (beq_iff_eq.mp hc).symm
      · rw [if_neg hc]
    intro e' he'
    rcases List.mem_map.mp he' with ⟨e2, he2, heq⟩
    refine Or.inl (List.mem_map.mpr ⟨e2, he2, ?_⟩)
    show e2.id = e'.id
    rw [← heq]
    exact (hgid e2).symm
  · exact ⟨fun e' he' => Or.inl (List.mem_map.mpr ⟨e', he', rfl⟩),
      Nat.le_refl _⟩
  · refine ⟨?_, Nat.le_succ _⟩
    intro e' he'
    rcases List.mem_append.mp he' with h1 | h1
    · exact Or.inl (List.mem_map.mpr ⟨e', h1, rfl⟩)
    · rcases List.mem_singleton.mp h1 with rfl
      exact Or.inr (Nat.le_refl _)

theorem processCandidates_ids (env : Env) (rootId : String) (recvAt : Int)
    (text : String) (evs : List CandidateEvent) (st : Store) :
    (∀ e' ∈ (processCandidates env rootId recvAt text evs st).2.1.events,
      e'.id ∈ st.events.map (fun e => e.id) ∨ st.nextEventId ≤ e'.id) ∧
    st.nextEventId ≤
      (processCandidates env rootId recvAt text evs st).2.1.nextEventId := by
  induction evs generalizing st with
  | nil =>
      exact ⟨fun e' he' => Or.inl (List.mem_map.mpr ⟨e', he', rfl⟩),
        Nat.le_refl _⟩
  | cons ev rest ih =>
      rcases hmc : mergeCandidate env rootId recvAt text st ev with ⟨d, st', tr⟩
      have h1 := mergeCandidate_ids env rootId recvAt text st ev
      rw [hmc] at h1
      have hstep : (∀ e' ∈ (processCandidates env rootId recvAt text rest st').2.1.events,
          e'.id ∈ st.events.map (fun e => e.id) ∨ st.nextEventId ≤ e'.id) ∧
          st.nextEventId ≤
            (processCandidates env rootId recvAt text rest st').2.1.nextEventId := by
        rcases ih st' with ⟨ih1, ih2⟩
        refine ⟨?_, Nat.le_trans h1.2 ih2⟩
        intro e' he'
        rcases ih1 e' he' with hin | hge
        · rcases List.mem_map.mp hin with ⟨e2, he2, heq⟩
          rcases h1.1 e2 he2 with hin2 | hge2
          · rw [← heq]
            exact Or.inl hin2
          · exact Or.inr (Nat.le_trans hge2 (heq ▸ Nat.le_refl _))
        · exact Or.inr (Nat.le_trans h1.2 hge)
      rw [processCandidates, hmc]
      cases d with
      | crashed => exact h1
      | keepExisting eid => exact hstep
      | supersede eid => exact hstep
      | insert eid => exact hstep

theorem extractStage_events_ids (env : Env) (mid subj text : String)
    (recvAt : Int) (rootId : String) (st : Store) (tr : List Action) :
    ∀ e' ∈ (extractStage env mid subj text recvAt rootId st tr).2.1.events,
      e'.id ∈ st.events.map (fun e => e.id) ∨ st.nextEventId ≤ e'.id := by
  simp only [extractStage]
  split
  · exact fun e' he' => Or.inl (List.mem_map.mpr ⟨e', he', rfl⟩)
  · exact fun e' he' => Or.inl (List.mem_map.mpr ⟨e', he', rfl⟩)
  · exact fun e' he' => Or.inl (List.mem_map.mpr ⟨e', he', rfl⟩)
  · exact fun e' he' => Or.inl (List.mem_map.mpr ⟨e', he', rfl⟩)
  · rename_i evs horacle
    split
    · rename_i st' tr' hpc
      have h := (processCandidates_ids env rootId recvAt text evs st).1
      rw [hpc] at h
      exact h
    · rename_i st' tr' hpc
      have h := (processCandidates_ids env rootId recvAt text evs st).1
      rw [hpc] at h
      exact h

theorem extractStage_trace (env : Env) (mid subj text : String)
    (recvAt : Int) (rootId : String) (st : Store) (tr : List Action) :
    ∃ rest, (extractStage env mid subj text recvAt rootId st tr).2.2.1 =
      tr ++ .oracleCall :: rest := by
  simp only [extractStage]
  split
  · exact ⟨[], by simp⟩
  · exact ⟨[], by simp⟩
  · exact ⟨[.markProcessed mid], by simp⟩
  · exact ⟨[.markProcessed mid], by simp⟩
  · split
    · rename_i st' tr' hpc
      exact ⟨tr', by simp⟩
    · rename_i st' tr' hpc
      exact ⟨tr', by simp⟩

theorem extractStage_not_diverge (env : Env) (mid subj text : String)
    (receivedAt : Int) (rootId : String) (st : Store) (tr : List Action) :
    (extractStage env mid subj text receivedAt rootId st tr).1 ≠ .diverge := by
  simp only [extractStage]
  split
  · simp
  · simp
  · simp
  · simp
  · split <;> simp

theorem mainStage_not_diverge (env : Env) (scrapedBy : String) (uid : Nat)
    (mid senderAddress senderName subj html text : String) (receivedAt : Int)
    (replyTo : Option String) (rootId : String) (trPre : List Action)
    (st : Store) :
    (mainStage env scrapedBy uid mid senderAddress senderName subj html text
      receivedAt replyTo rootId trPre st).1 ≠ .diverge := by
  simp only [mainStage]
  split
  · split
    · simp
    · exact extractStage_not_diverge _ _ _ _ _ _ _ _
  · exact extractStage_not_diverge _ _ _ _ _ _ _ _

theorem lookupEmail_upsert_model_ne (env : Env) (st : Store)
    (rec : StoredEmail) (rid : String)
    (hrecm : rec.modelName = env.model ++ "_PROCESSING")
    (hmodel : ∀ e ∈ st.emails, e.messageId = rid → e.modelName ≠ env.model) :
    ((lookupEmail (storeUpsertEmail st rec) rid).map
      (fun e => e.modelName) == some env.model) = false := by
  have hkey : ∀ o : Option StoredEmail,
      (∀ e, o = some e → e.modelName ≠ env.model) →
      ((o.map (fun e => e.modelName)) == some env.model) = false := by
    intro o ho
    cases o with
    | none => rfl
    | some e =>
        have hne := ho e rfl
        rw [Option.map_some', beq_eq_false_iff_ne]
        intro hc
        exact hne (Option.some.inj hc)
  apply hkey
  intro e' he'
  cases hl : lookupEmail st rec.messageId with
  | some e0 =>
      simp only [storeUpsertEmail, hl] at he'
      have hf : ∀ e : StoredEmail,
          ((fun e => if e.messageId == rec.messageId then
            { e with modelName := rec.modelName } else e) e).messageId =
          e.messageId := by
        intro e
        by_cases hc : (e.messageId == rec.messageId) = true <;> simp [hc]
      have h2 : lookupEmail
          { st with emails := st.emails.map (fun e =>
              if e.messageId == rec.messageId then
                { e with modelName := rec.modelName } else e) } rid =
          (st.emails.find? (fun e => e.messageId == rid)).map
            (fun e => if e.messageId == rec.messageId then
              { e with modelName := rec.modelName } else e) :=
        find?_mid_map _ hf rid st.emails
      rw [h2] at he'
      cases hfind : st.emails.find? (fun e => e.messageId == rid) with
      | none => rw [hfind] at he'; cases he'
      | some e1 =>
          rw [hfind] at he'
          have he1 : e1 ∈ st.emails := List.mem_of_find?_eq_some hfind
          have hid1 : e1.messageId = rid := by
            have h3 := @List.find?_some StoredEmail
              (fun e => e.messageId == rid) e1 st.emails hfind
            exact beq_iff_eq.mp h3
          have hm1 : e1.modelName ≠ env.model := hmodel e1 he1 hid1
          have he'2 : (if e1.messageId == rec.messageId then
              { e1 with modelName := rec.modelName } else e1) = e' :=
            Option.some.inj he'
          rw [← he'2]
          by_cases hc : (e1.messageId == rec.messageId) = true
          · rw [if_pos hc]
            show rec.modelName ≠ env.model
            rw [hrecm]
            exact appendProcessing_ne env.model
          · rw [if_neg hc]
            exact hm1
  | none =>
      simp only [storeUpsertEmail, hl] at he'
      have he'' : (st.emails ++ [rec]).find?
          (fun e => e.messageId == rid) = some e' := he'
      rw [List.find?_append] at he''
      cases hfind : st.emails.find? (fun e => e.messageId == rid) with
      | some e1 =>
          rw [hfind] at he''
          have he1 : e1 ∈ st.emails := List.mem_of_find?_eq_some hfind
          have hid1 : e1.messageId = rid := by
            have h3 := @List.find?_some StoredEmail
              (fun e => e.messageId == rid) e1 st.emails hfind
            exact beq_iff_eq.mp h3
          have h4 : e1 = e' := Option.some.inj he''
          rw [← h4]
          exact hmodel e1 he1 hid1
      | none =>
          rw [hfind] at he''
          have h5 : [rec].find? (fun e => e.messageId == rid) = some e' := he''
          by_cases hc : (rec.messageId == rid) = true
          · have h6 : [rec].find? (fun e => e.messageId == rid) = some rec := by
              simp [List.find?_cons, hc]
            rw [h6] at h5
            have h7 : rec = e' := Option.some.inj h5
            rw [← h7, hrecm]
            exact appendProcessing_ne env.model
          · have h6 : [rec].find? (fun e => e.messageId == rid) = none := by
              simp [List.find?_cons, hc]
            rw [h6] at h5
            cases h5

theorem mainStage_bump (env : Env) (scrapedBy : String) (uid : Nat)
    (mid senderAddress senderName subj html text : String) (receivedAt : Int)
    (replyTo : Option String) (rootId : String) (trPre : List Action)
    (st : Store) (e0 : StoredEvent)
    (hex : st.events.find? (fun e => e.fromEmailId == rootId) = some e0)
    (hmodel : ∀ e ∈ st.emails, e.messageId = rootId →
      e.modelName ≠ env.model) :
    (∃ rest, (mainStage env scrapedBy uid mid senderAddress senderName subj
        html text receivedAt replyTo rootId trPre st).2.2.1 =
      (trPre ++ [.emailUpsert mid]) ++
        .deleteEvents rootId :: .oracleCall :: rest) ∧
    (∀ e' ∈ (mainStage env scrapedBy uid mid senderAddress senderName subj
        html text receivedAt replyTo rootId trPre st).2.1.events,
      (∃ e2 ∈ st.events, (e2.fromEmailId == rootId) = false ∧ e2.id = e'.id) ∨
        st.nextEventId ≤ e'.id) := by
  have hcond : ((lookupEmail (storeUpsertEmail st
      ⟨mid, scrapedBy, uid, senderAddress, senderName, subj, html,
        receivedAt, env.model ++ "_PROCESSING", replyTo⟩) rootId).map
      (fun e => e.modelName) == some env.model) = false :=
    lookupEmail_upsert_model_ne env st
      ⟨mid, scrapedBy, uid, senderAddress, senderName, subj, html,
        receivedAt, env.model ++ "_PROCESSING", replyTo⟩ rootId rfl hmodel
  simp only [mainStage, storeUpsertEmail_events, hex, hcond,
    Bool.false_eq_true, if_false]
  constructor
  · rcases extractStage_trace env mid subj text receivedAt rootId
      { storeUpsertEmail st
          ⟨mid, scrapedBy, uid, senderAddress, senderName, subj, html,
            receivedAt, env.model ++ "_PROCESSING", replyTo⟩ with
          events := st.events.filter (fun e => e.fromEmailId != rootId) }
      ((trPre ++ [.emailUpsert mid]) ++ [.deleteEvents rootId])
      with ⟨rest, hrest⟩
    refine ⟨rest, ?_⟩
    rw [hrest]
    simp
  · intro e' he'
    have h := extractStage_events_ids env mid subj text receivedAt rootId
      { storeUpsertEmail st
          ⟨mid, scrapedBy, uid, senderAddress, senderName, subj, html,
            receivedAt, env.model ++ "_PROCESSING", replyTo⟩ with
          events := st.events.filter (fun e => e.fromEmailId != rootId) }
      ((trPre ++ [.emailUpsert mid]) ++ [.deleteEvents rootId]) e' he'
    rcases h with hin | hge
    · rcases List.mem_map.mp hin with ⟨e2, he2, heq⟩
      have he2' : e2 ∈ st.events.filter (fun e => e.fromEmailId != rootId) :=
        he2
      rcases List.mem_filter.mp he2' with ⟨hmem, hpred⟩
      refine Or.inl ⟨e2, hmem, ?_, heq⟩
      simpa [bne] using hpred
    · right
      have hge' : (storeUpsertEmail st
          ⟨mid, scrapedBy, uid, senderAddress, senderName, subj, html,
            receivedAt, env.model ++ "_PROCESSING", replyTo⟩).nextEventId ≤
          e'.id := hge
      rw [storeUpsertEmail_nextEventId] at hge'
      exact hge'

/-- Claim C4 (amended): for every message whose resolved thread root —
itself for a non-reply, the end of the backward walk for a reply — has
anchored events from an older extractor version, all of them are deleted
before the extraction oracle is invoked: the trace runs `deleteEvents`
immediately before `oracleCall`, with no store write between the
registration and the message upsert (only a possible coordinator await),
and no event carrying any deleted event's id survives in the post-state
(anything now anchored is rebuilt under a fresh id).  The embedding index,
however, is not purged of the deleted ids (see the counterexample). -/
theorem claim_C4 (env : Env) (scrapedBy : String) (uid : Nat)
    (p : ParsedMailIn) (tasks : List String) (st : Store) (mid : String)
    (addr nm : Option String) (srest : List (Option String × Option String))
    (html subj : String) (rootId : String) (e0 : StoredEvent)
    (hmid : p.messageId = some mid)
    (hsender : p.sender = some ((addr, nm) :: srest))
    (hhtml : p.html = some html) (hsubj : p.subject = some subj)
    (hmal : malformedTest p = some false)
    (hconf : conflictCheck st mid uid = false)
    (hdorm : isDormspam
      (env.removeArtifacts (p.text.getD (env.convert html))) = true)
    (hroot : resolvedRoot st p = some rootId)
    (hex : st.events.find? (fun e => e.fromEmailId == rootId) = some e0)
    (hmodel : ∀ e ∈ st.emails, e.messageId = rootId →
      e.modelName ≠ env.model)
    (hfresh : ∀ e ∈ st.events, e.id < st.nextEventId)
    (hids : st.events.Pairwise (fun a b => a.id ≠ b.id)) :
    (∃ pre rest, (processMail env scrapedBy uid p tasks st).trace =
      [.register mid] ++ pre ++
        [.emailUpsert mid, .deleteEvents rootId, .oracleCall] ++ rest ∧
      ∀ a ∈ pre, isStoreWrite a = false) ∧
    (∀ d ∈ st.events, d.fromEmailId = rootId →
      ∀ e' ∈ (processMail env scrapedBy uid p tasks st).store.events,
        e'.id ≠ d.id) := by
  have hreg : regOf p = [.register mid] := by
    unfold regOf
    rw [hmid]
  obtain ⟨replyTo, pre, hpre, hbody⟩ : ∃ replyTo pre,
      (∀ a ∈ pre, isStoreWrite a = false) ∧
      processMailBody env scrapedBy uid p tasks st =
        mainStage env scrapedBy uid mid (addr.getD "")
          (nm.getD (addr.getD "")) subj html
          (env.removeArtifacts (p.text.getD (env.convert html)))
          (p.date.getD env.now) replyTo rootId (regOf p ++ pre) st := by
    cases hrt : p.inReplyTo with
    | none =>
        have hr2 : mid = rootId := by
          simp only [resolvedRoot, hrt] at hroot
          rw [hmid] at hroot
          exact Option.some.inj hroot
        subst hr2
        refine ⟨none, [], by simp, ?_⟩
        simp [processMailBody, hmal, hmid, hsender, hhtml, hsubj, hconf,
          hdorm, hrt]
    | some pid =>
        simp only [resolvedRoot, hrt] at hroot
        cases hpe : lookupEmail st pid with
        | none => simp [hpe] at hroot
        | some pe =>
            simp only [hpe] at hroot
            cases hwalk : rootWalk st (st.emails.length + 1) pe with
            | notFound => simp [hwalk] at hroot
            | exhausted => simp [hwalk] at hroot
            | found root =>
                simp only [hwalk] at hroot
                have hr2 : root.messageId = rootId := by simpa using hroot
                refine ⟨some pid,
                  if pe.messageId ∈ tasks then [.awaitTask pe.messageId]
                  else [], ?_, ?_⟩
                · intro a ha
                  by_cases hc : pe.messageId ∈ tasks
                  · rw [if_pos hc] at ha
                    have ha2 : a = Action.awaitTask pe.messageId :=
                      List.mem_singleton.mp ha
                    rw [ha2]
                    rfl
                  · rw [if_neg hc] at ha
                    cases ha
                · rw [← hr2]
                  simp [processMailBody, hmal, hmid, hsender, hhtml, hsubj,
                    hconf, hdorm, hrt, hpe, hwalk]
  have hbump := mainStage_bump env scrapedBy uid mid (addr.getD "")
    (nm.getD (addr.getD "")) subj html
    (env.removeArtifacts (p.text.getD (env.convert html)))
    (p.date.getD env.now) replyTo rootId (regOf p ++ pre) st e0 hex hmodel
  rcases hms : mainStage env scrapedBy uid mid (addr.getD "")
      (nm.getD (addr.getD "")) subj html
      (env.removeArtifacts (p.text.getD (env.convert html)))
      (p.date.getD env.now) replyTo rootId (regOf p ++ pre) st
    with ⟨r2, st2, tr2, pend2⟩
  rw [hms] at hbump
  rcases hbump with ⟨⟨rest, htr⟩, hev⟩
  have hnd : r2 ≠ .diverge := by
    have h := mainStage_not_diverge env scrapedBy uid mid (addr.getD "")
      (nm.getD (addr.getD "")) subj html
      (env.removeArtifacts (p.text.getD (env.convert html)))
      (p.date.getD env.now) replyTo rootId (regOf p ++ pre) st
    rw [hms] at h
    exact h
  have hpm : processMail env scrapedBy uid p tasks st =
      ⟨r2, st2, tr2 ++ [.resolveTask], pend2⟩ := by
    unfold processMail
    rw [hbody, hms]
    cases r2 with
    | ok r' => rfl
    | thrown => rfl
    | diverge => exact absurd rfl hnd
  rw [hpm]
  constructor
  · refine ⟨pre, rest ++ [.resolveTask], ?_, hpre⟩
    have htr' : tr2 = ((regOf p ++ pre) ++ [Action.emailUpsert mid]) ++
        Action.deleteEvents rootId :: Action.oracleCall :: rest := htr
    show tr2 ++ [Action.resolveTask] = _
    rw [htr', hreg]
    simp
  · intro d hd hdroot e' he'
    rcases hev e' he' with ⟨e2, hmem2, hpred2, hid2⟩ | hge
    · intro heq
      have : e2 = d := pairwise_id_unique hids hmem2 hd (hid2.trans heq)
      rw [this, hdroot] at hpred2
      simp at hpred2
    · intro heq
      have hlt := hfresh d hd
      rw [← heq] at hlt
      omega

/-- Counterexample to claim C4 as stated: after the version-bump run deletes
the stale event (id 1) anchored to the root, the embedding index still holds
the entry `⟨"Lecture", 0, [1]⟩` referencing the deleted id, while the store
holds no events at all — the invariant that every id in embedding metadata
refers to a stored event is broken. -/
theorem claim_C4_counterexample :
    exStoredEvent ∈ exStore.events ∧
    exStoredEvent.fromEmailId = "root" ∧
    (processMail exEnv "scraper" 1 exParsedRoot [] exStore).result =
      .ok .DORMSPAM_WITH_EVENT ∧
    (processMail exEnv "scraper" 1 exParsedRoot [] exStore).store.events = [] ∧
    (processMail exEnv "scraper" 1 exParsedRoot [] exStore).store.index =
      [⟨"Lecture", 0, [1]⟩] := by
  exact ⟨by decide, rfl, rfl, rfl, rfl⟩

/-- Witness for claim C4 at a concrete version-bump run of a reply: the
reply `exParsedE` resolves to the stored root `exRootEmail` (processed by
the model "OLD"), whose anchored event is deleted before re-extraction. -/
theorem claim_C4_witness :
    (∃ pre rest,
      (processMail exEnv "scraper" 7 exParsedE ["root"] exStore).trace =
        [.register "mE"] ++ pre ++
          [.emailUpsert "mE", .deleteEvents "root", .oracleCall] ++ rest ∧
      ∀ a ∈ pre, isStoreWrite a = false) ∧
    (∀ d ∈ exStore.events, d.fromEmailId = "root" →
      ∀ e' ∈ (processMail exEnv "scraper" 7 exParsedE
          ["root"] exStore).store.events,
        e'.id ≠ d.id) :=
  claim_C4 exEnv "scraper" 7 exParsedE ["root"] exStore "mE"
    (some "e@mit.edu") none [] "b" "s" "root" exStoredEvent
    rfl rfl rfl rfl rfl rfl (by decide) rfl rfl (by decide) (by decide)
    (by decide)

/-! ### Thread ordering across a schedule (claim C1) -/

theorem precedes_of_not_mem {α : Type} (x y : α) (l : List α) (hy : y ∉ l) :
    Precedes x y l := by
  intro k hk
  exact absurd (List.get?_mem hk) hy

theorem precedes_of_split {α : Type} (x y : α) (pre rest : List α)
    (hy : y ∉ pre) (hxy : x ≠ y) :
    Precedes x y (pre ++ x :: rest) := by
  intro k hk
  refine ⟨pre.length, ?_, ?_⟩
  · rcases Nat.lt_trichotomy k pre.length with hlt | heq | hgt
    · exfalso
      rw [List.get?_append hlt] at hk
      exact hy (List.get?_mem hk)
    · exfalso
      subst heq
      rw [List.get?_append_right (Nat.le_refl _)] at hk
      simp at hk
      exact hxy hk
    · exact hgt
  · rw [List.get?_append_right (Nat.le_refl _)]
    simp

theorem precedes_append {α : Type} (x y : α) (l l2 : List α)
    (h : Precedes x y l) (hy : y ∉ l2) : Precedes x y (l ++ l2) := by
  intro k hk
  by_cases hlt : k < l.length
  · rw [List.get?_append hlt] at hk
    rcases h k hk with ⟨j, hj, hjx⟩
    refine ⟨j, hj, ?_⟩
    rw [List.get?_append (Nat.lt_trans hj hlt)]
    exact hjx
  · push_neg at hlt
    rw [List.get?_append_right hlt] at hk
    exact absurd (List.get?_mem hk) hy

theorem get?_split {α : Type} (l : List α) (k : Nat) (y : α)
    (h : l.get? k = some y) : ∃ l1 l2, l = l1 ++ y :: l2 ∧ l1.length = k := by
  induction l generalizing k with
  | nil => cases h
  | cons a t ih =>
      cases k with
      | zero =>
          have ha : a = y := Option.some.inj h
          subst ha
          exact ⟨[], t, rfl, rfl⟩
      | succ k =>
          rcases ih k h with ⟨l1, l2, hsplit, hlen⟩
          exact ⟨a :: l1, l2, by rw [hsplit]; rfl, by simp [hlen]⟩

theorem projTask_precedes (b : String) (x y : Action)
    (sched : List (String × Action))
    (hp : Precedes x y (projTask sched b)) :
    ∀ k, sched.get? k = some (b, y) → ∃ j < k, sched.get? j = some (b, x) := by
  intro k hk
  rcases get?_split sched k _ hk with ⟨s1, s2, hsp, hlen⟩
  subst hsp
  have hproj : projTask (s1 ++ (b, y) :: s2) b =
      projTask s1 b ++ y :: projTask s2 b := by
    simp [projTask, List.filterMap_append, List.filterMap_cons]
  have hy : (projTask (s1 ++ (b, y) :: s2) b).get?
      (projTask s1 b).length = some y := by
    rw [hproj, List.get?_append_right (Nat.le_refl _)]
    simp
  rcases hp _ hy with ⟨j', hj', hx⟩
  rw [hproj, List.get?_append hj'] at hx
  have hxmem : x ∈ projTask s1 b := List.get?_mem hx
  rcases List.mem_filterMap.mp hxmem with ⟨e, he, hfe⟩
  have hfe' : (if e.1 == b then some e.2 else none) = some x := hfe
  have hb2 : e = (b, x) := by
    by_cases hc : (e.1 == b) = true
    · rw [if_pos hc] at hfe'
      have h1 : e.1 = b := beq_iff_eq.mp hc
      have h2 : e.2 = x := Option.some.inj hfe'
      cases e
      simp_all
    · rw [if_neg hc] at hfe'
      cases hfe'
  rw [hb2] at he
  rcases List.get?_of_mem he with ⟨n, hn⟩
  rcases List.get?_eq_some.mp hn with ⟨hnlt, _⟩
  refine ⟨n, by omega, ?_⟩
  rw [List.get?_append hnlt]
  exact hn

theorem lookupEmail_messageId (st : Store) (mid : String) (e : StoredEmail)
    (h : lookupEmail st mid = some e) : e.messageId = mid := by
  unfold lookupEmail at h
  have h2 := @List.find?_some StoredEmail (fun e => e.messageId == mid)
    e st.emails h
  exact beq_iff_eq.mp h2

theorem emailUpsert_not_mem_regOf (p : ParsedMailIn) (m : String) :
    Action.emailUpsert m ∉ regOf p := by
  unfold regOf
  split <;> simp

theorem exists_tail_of_extract (env : Env) (mid subj text : String)
    (receivedAt : Int) (rootId : String) (st : Store) (pre tr : List Action)
    (h : ∃ middle, tr = pre ++ middle) :
    ∃ tail, (extractStage env mid subj text receivedAt rootId st tr).2.2.1 =
      pre ++ tail := by
  rcases h with ⟨middle, rfl⟩
  rcases extractStage_trace env mid subj text receivedAt rootId st
    (pre ++ middle) with ⟨rest, hrest⟩
  exact ⟨middle ++ .oracleCall :: rest, by rw [hrest, List.append_assoc]⟩

theorem mainStage_trace_prefix (env : Env) (scrapedBy : String) (uid : Nat)
    (mid senderAddress senderName subj html text : String) (receivedAt : Int)
    (replyTo : Option String) (rootId : String) (trPre : List Action)
    (st : Store) :
    ∃ tail, (mainStage env scrapedBy uid mid senderAddress senderName subj
      html text receivedAt replyTo rootId trPre st).2.2.1 = trPre ++ tail := by
  simp only [mainStage]
  split
  · split
    · exact ⟨[.emailUpsert mid, .markProcessed mid], by simp⟩
    · exact exists_tail_of_extract _ _ _ _ _ _ _ _ _
        ⟨[.emailUpsert mid, .deleteEvents rootId], by simp⟩
  · exact exists_tail_of_extract _ _ _ _ _ _ _ _ _
      ⟨[.emailUpsert mid], by simp⟩

theorem precedes_mainStage (env : Env) (scrapedBy : String) (uid : Nat)
    (mid senderAddress senderName subj html text : String) (receivedAt : Int)
    (replyTo : Option String) (rootId : String) (st : Store)
    (pid m : String) (reg : List Action)
    (hy : Action.emailUpsert m ∉ reg) :
    Precedes (Action.awaitTask pid) (Action.emailUpsert m)
      (mainStage env scrapedBy uid mid senderAddress senderName subj html text
        receivedAt replyTo rootId (reg ++ [Action.awaitTask pid]) st).2.2.1 := by
  obtain ⟨tail, htail⟩ := mainStage_trace_prefix env scrapedBy uid mid
    senderAddress senderName subj html text receivedAt replyTo rootId
    (reg ++ [Action.awaitTask pid]) st
  rw [htail, List.append_assoc]
  exact precedes_of_split _ _ _ _ hy (by simp)

theorem processMail_reply_order (env : Env) (scrapedBy : String) (uid : Nat)
    (p : ParsedMailIn) (tasks : List String) (st : Store) (pid m : String)
    (hrep : p.inReplyTo = some pid) (htask : pid ∈ tasks) :
    Precedes (Action.awaitTask pid) (Action.emailUpsert m)
      (processMail env scrapedBy uid p tasks st).trace := by
  have hb : Precedes (Action.awaitTask pid) (Action.emailUpsert m)
      (processMailBody env scrapedBy uid p tasks st).2.2.1 := by
    simp only [processMailBody, hrep]
    split
    · exact precedes_of_not_mem _ _ _ (emailUpsert_not_mem_regOf p m)
    · exact precedes_append _ _ _ _
        (precedes_of_not_mem _ _ _ (emailUpsert_not_mem_regOf p m)) (by simp)
    · split
      · split
        · exact precedes_append _ _ _ _
            (precedes_of_not_mem _ _ _ (emailUpsert_not_mem_regOf p m))
            (by simp)
        · split
          · exact precedes_append _ _ _ _
              (precedes_of_not_mem _ _ _ (emailUpsert_not_mem_regOf p m))
              (by simp)
          · split
            · exact precedes_of_not_mem _ _ _ (emailUpsert_not_mem_regOf p m)
            · rename_i pe hpe
              have hpmid : pe.messageId = pid :=
                lookupEmail_messageId st pid pe hpe
              split
              all_goals
                try exact precedes_of_not_mem _ _ _ (emailUpsert_not_mem_regOf p m)
              rw [hpmid, if_pos htask]
              apply precedes_mainStage
              exact emailUpsert_not_mem_regOf p m
      all_goals exact precedes_of_not_mem _ _ _ (emailUpsert_not_mem_regOf p m)
  rcases hB : processMailBody env scrapedBy uid p tasks st
    with ⟨r, st', tr, pend⟩
  rw [hB] at hb
  have hb' : Precedes (Action.awaitTask pid) (Action.emailUpsert m) tr := hb
  unfold processMail
  rw [hB]
  cases r with
  | diverge => exact hb'
  | ok r' => exact precedes_append _ _ _ _ hb' (by simp)
  | thrown => exact precedes_append _ _ _ _ hb' (by simp)

theorem validSchedule_of_no_await (owner : String → Option String)
    (sched : List (String × Action))
    (h : sched.all (fun e => noAwait e.2) = true) :
    ValidSchedule owner sched := by
  intro k b p hk a ha
  exfalso
  have hmem : (b, Action.awaitTask p) ∈ sched := List.get?_mem hk
  have h2 := List.all_eq_true.mp h _ hmem
  simp [noAwait] at h2

theorem exSchedE_valid : ValidSchedule exOwnerE exSchedE := by
  intro k b p hk a ha
  match k, hk with
  | 0, hk => nomatch congrArg Prod.snd (Option.some.inj hk)
  | 1, hk => nomatch congrArg Prod.snd (Option.some.inj hk)
  | 2, hk => nomatch congrArg Prod.snd (Option.some.inj hk)
  | 3, hk =>
      have h2 : Action.awaitTask "root" = Action.awaitTask p :=
        congrArg Prod.snd (Option.some.inj hk)
      have hp : "root" = p := by injection h2
      subst hp
      have ha2 : "A" = a := Option.some.inj ha
      refine ⟨1, by omega, ?_⟩
      rw [← ha2]
      rfl
  | 4, hk => nomatch congrArg Prod.snd (Option.some.inj hk)
  | 5, hk => nomatch congrArg Prod.snd (Option.some.inj hk)
  | 6, hk => nomatch congrArg Prod.snd (Option.some.inj hk)
  | 7, hk => nomatch congrArg Prod.snd (Option.some.inj hk)
  | n + 8, hk => nomatch hk

/-- Claim C1 (amended): in any valid interleaving of a run's tasks (every
await of a registered one-shot handle comes after its owner's resolution),
a reply task's message-record store upsert never occurs before the parent
task's resolution: the reply awaits the parent's registered handle before
its email upsert, so every `emailUpsert` of the reply's pipeline is
preceded in the schedule by the parent owner's `resolveTask`.  The claim's
stronger reading — that the reply's pipeline performs NO store write before
the parent resolves — is false: the early-exit tombstone writes do not wait
(see the counterexample). -/
theorem claim_C1 (env : Env) (scrapedBy : String) (uid : Nat)
    (p : ParsedMailIn) (tasks : List String) (st : Store)
    (owner : String → Option String) (sched : List (String × Action))
    (aId bId pid m : String)
    (hrep : p.inReplyTo = some pid) (htask : pid ∈ tasks)
    (howner : owner pid = some aId)
    (hvalid : ValidSchedule owner sched)
    (hproj : projTask sched bId =
      (processMail env scrapedBy uid p tasks st).trace) :
    ∀ k, sched.get? k = some (bId, .emailUpsert m) →
      ∃ j < k, sched.get? j = some (aId, .resolveTask) := by
  intro k hk
  have hprec : Precedes (Action.awaitTask pid) (Action.emailUpsert m)
      (projTask sched bId) := by
    rw [hproj]
    exact processMail_reply_order env scrapedBy uid p tasks st pid m hrep htask
  rcases projTask_precedes bId _ _ sched hprec k hk with ⟨j1, hj1k, hj1⟩
  rcases hvalid j1 bId pid hj1 aId howner with ⟨j, hj, hjr⟩
  exact ⟨j, Nat.lt_trans hj hj1k, hjr⟩

/-- Witness for claim C1: a valid schedule running the parent task `A` to
resolution first, then the reply task; the reply's `emailUpsert` sits at
index 4 and `A`'s `resolveTask` indeed precedes it. -/
theorem claim_C1_witness :
    ∃ j < 4, exSchedE.get? j = some ("A", Action.resolveTask) :=
  claim_C1 exEnv "scraper" 7 exParsedE ["root"] exStore exOwnerE exSchedE
    "A" "mE" "root" "mE" rfl (by decide) rfl exSchedE_valid (by decide)
    4 (by decide)

/-- Counterexample to claim C1 as stated: a valid schedule (it contains no
await at all, since the reply `exParsedB` is not dormspam and exits early)
in which the reply task's tombstone — a persistent-store write — executes
at index 1, strictly before the parent task's `resolveTask` at index 6;
so the reply's pipeline does write to the store before the parent has
resolved. -/
theorem claim_C1_counterexample :
    ValidSchedule exOwner exSched ∧
    projTask exSched "mB" = exTraceB ∧
    projTask exSched "rootA" = exTraceA ∧
    exParsedB.inReplyTo = some "rootA" ∧
    exSched.get? 1 = some ("mB", Action.tombstone) ∧
    isStoreWrite Action.tombstone = true ∧
    exSched.get? 6 = some ("rootA", Action.resolveTask) ∧
    (∀ k < 6, exSched.get? k ≠ some ("rootA", Action.resolveTask)) := by
  refine ⟨validSchedule_of_no_await exOwner exSched (by decide),
    by decide, by decide, rfl, by decide, rfl, by decide, by decide⟩

end DormSoup

